import Mathlib

/-!
Shallow embedding of the Inkling retrieval and classification core
(src/app/services/vector_embeddings.py, ai_classification.py, rag_chatbot.py).

Python strings are modelled as `List Char`; floating-point similarity scores as
exact rationals `ℚ` (subtraction is written with an explicit `mkRat`-based
helper `qsub`, proved equal to `Sub.sub` below, so that everything evaluates by
kernel reduction).  External effects (the ChromaDB collection, the sentence
embedder and the LLM generation calls) are passed in as explicit state and
oracle parameters: the store is a list of chunk records, an LLM response is an
`Option (List Char)` where `none` models the call raising, and `json.loads` is
an oracle `List Char → Option Json`.
-/

namespace Inkling

/-! ## Python string primitives -/

/-- Python whitespace, as used by `str.strip` / `str.split`. -/
def pyWS (c : Char) : Bool :=
  c == ' ' || c == '\t' || c == '\n' || c == '\r' || c == '\x0b' || c == '\x0c'

/-- `str.lstrip()`. -/
def stripL (l : List Char) : List Char := l.dropWhile pyWS

/-- `str.rstrip()`. -/
def stripR (l : List Char) : List Char := (l.reverse.dropWhile pyWS).reverse

/-- Python `str.strip()`. -/
def pyStrip (l : List Char) : List Char := stripL (stripR l)

/-- Python `str.lower()` (ASCII range, which covers all labels in play). -/
def lowerS (l : List Char) : List Char := l.map Char.toLower

/-- Python `str.upper()`. -/
def upperS (l : List Char) : List Char := l.map Char.toUpper

/-- `re.split` on a character class: split on maximal nonempty runs of
separator characters, keeping empty pieces at the borders, exactly like
`re.split(r'[.!?]+', text)`.  The accumulator state is `some acc` while a piece
is being collected and `none` right after a separator run. -/
def splitRunsGo (p : Char → Bool) : Option (List Char) → List Char → List (List Char)
  | some acc, [] => [acc.reverse]
  | none, [] => [[]]
  | some acc, c :: cs =>
    if p c then acc.reverse :: splitRunsGo p none cs
    else splitRunsGo p (some (c :: acc)) cs
  | none, c :: cs =>
    if p c then splitRunsGo p none cs
    else splitRunsGo p (some [c]) cs

def splitRuns (p : Char → Bool) (l : List Char) : List (List Char) :=
  splitRunsGo p (some []) l

/-- Python `str.split(sep)`: split at every separator, keeping empty pieces. -/
def splitAll (p : Char → Bool) : List Char → List (List Char)
  | [] => [[]]
  | c :: cs =>
    if p c then [] :: splitAll p cs
    else
      match splitAll p cs with
      | [] => [[c]]
      | h :: t => (c :: h) :: t

/-- Python `str.split()` with no argument: whitespace runs, no empty pieces. -/
def splitWS (l : List Char) : List (List Char) :=
  (splitRuns pyWS l).filter (fun w => !w.isEmpty)

/-- Does `hay` start with `needle`?  (Python `str.startswith`.) -/
def hasPre : List Char → List Char → Bool
  | [], _ => true
  | _ :: _, [] => false
  | a :: as, b :: bs => a == b && hasPre as bs

/-- Python substring test `needle in hay`. -/
def hasSub (n : List Char) : List Char → Bool
  | [] => n.isEmpty
  | b :: bs => hasPre n (b :: bs) || hasSub n bs

/-- Python `s[-n:]` for `n > 0`: the last `n` characters. -/
def lastN (n : Nat) (l : List Char) : List Char := l.drop (l.length - n)

/-- Python `" ".join(words)`. -/
def joinWords : List (List Char) → List Char
  | [] => []
  | [w] => w
  | w :: ws => w ++ ' ' :: joinWords ws

/-- `str.lstrip(chars)` for an explicit character set. -/
def lstripSet (cs : List Char) (l : List Char) : List Char :=
  l.dropWhile (fun c => cs.contains c)

/-- Index of the first occurrence of `c` (Python `str.find`, `none` = -1). -/
def idxOf (c : Char) : List Char → Option Nat
  | [] => none
  | x :: xs => if x == c then some 0 else (idxOf c xs).map (· + 1)

/-- Index of the last occurrence of `c` (Python `str.rfind`, `none` = -1). -/
def lastIdxOf (c : Char) (l : List Char) : Option Nat :=
  (idxOf c l.reverse).map (fun k => l.length - 1 - k)

/-! ## Exact rationals standing in for the Python floats

Similarity scores flow through comparisons, `1 - distance` and `min` only, so
they are modelled exactly.  Core `Rat` arithmetic does not reduce in the
kernel, hence the explicit `mkRat` form; `qsub_eq_sub` below shows it is
ordinary subtraction. -/

def qsub (a b : ℚ) : ℚ :=
  mkRat (a.num * (b.den : Int) - b.num * (a.den : Int)) (a.den * b.den)

/-- Python `min` of two numbers. -/
def qmin (a b : ℚ) : ℚ := if a ≤ b then a else b

/-- Python `min(list)` over a nonempty list (`0` on `[]`, a guarded case). -/
def pyMin : List ℚ → ℚ
  | [] => 0
  | x :: xs => xs.foldl qmin x

/-- Stable descending insertion: `x` goes before the first element that does
not strictly beat it, so earlier elements win ties. -/
def insertDesc (key : α → ℚ) (x : α) : List α → List α
  | [] => [x]
  | y :: ys => if key x < key y then y :: insertDesc key x ys else x :: y :: ys

/-- Python `sorted(l, key=key, reverse=True)`: stable, non-increasing in the
key. -/
def sortDesc (key : α → ℚ) : List α → List α
  | [] => []
  | x :: xs => insertDesc key x (sortDesc key xs)

/-! ## Chunker: `VectorEmbeddingService._chunk_text` -/

/-- The sentence boundary class of `re.split(r'[.!?]+', text)`. -/
def sentenceSep (c : Char) : Bool := c == '.' || c == '!' || c == '?'

/-- One iteration of the sentence-accumulation loop of `_chunk_text`.
State: (chunks so far, current buffer). -/
def chunkStep (chunk_size overlap : Nat) (st : List (List Char) × List Char)
    (raw : List Char) : List (List Char) × List Char :=
  let s := pyStrip raw
  if s.isEmpty then st
  else
    let chunks := st.1
    let cur := st.2
    if chunk_size < cur.length + s.length ∧ ¬cur.isEmpty then
      (chunks ++ [pyStrip cur],
        if 0 < overlap ∧ overlap < cur.length then lastN overlap cur ++ ' ' :: s else s)
    else
      (chunks, if cur.isEmpty then s else cur ++ ' ' :: s)

/-- `VectorEmbeddingService._chunk_text(text, chunk_size, overlap)`. -/
def _chunk_text (text : List Char) (chunk_size overlap : Nat) : List (List Char) :=
  if text.isEmpty ∨ text.length < chunk_size then [text]
  else
    let sentences := splitRuns sentenceSep text
    let st := sentences.foldl (chunkStep chunk_size overlap) ([], [])
    if ¬(pyStrip st.2).isEmpty then st.1 ++ [pyStrip st.2] else st.1

/-! ## Embedding store: state and `add/remove_note_embeddings` -/

/-- One stored chunk of the ChromaDB collection: id, document and metadata. -/
structure NoteChunk where
  cid : List Char
  note_id : Nat
  chunk_index : Nat
  document : List Char
  embedding : List ℚ
  subject : List Char
  user_id : Nat
  title : List Char
  created_at : List Char
deriving DecidableEq, Repr

/-- The collection contents, in insertion order. -/
abbrev Store := List NoteChunk

/-- `VectorEmbeddingService.remove_note_embeddings`.  `getFails` / `delFails`
model the `collection.get` / `collection.delete` calls raising; the method
catches every exception and returns `False` with the store untouched. -/
def remove_note_embeddings (enabled getFails delFails : Bool) (note_id : Nat)
    (s : Store) : Bool × Store :=
  if !enabled then (false, s)
  else if getFails then (false, s)
  else
    let ids := ((s : List NoteChunk).filter (fun e => e.note_id == note_id)).map (·.cid)
    if !ids.isEmpty then
      if delFails then (false, s)
      else (true, (s : List NoteChunk).filter (fun e => !ids.contains e.cid))
    else (true, s)

/-- The chunk record built by the indexing loop of `add_note_embeddings`
(id `"note_{note_id}_chunk_{i}"` plus metadata and the embedding). -/
def mkChunkEntry (enc : List Char → List ℚ) (note_id : Nat)
    (subject_name : List Char) (user_id : Nat) (title created_at : List Char)
    (i : Nat) (c : List Char) : NoteChunk :=
  { cid := "note_".toList ++ (Nat.repr note_id).toList
      ++ "_chunk_".toList ++ (Nat.repr i).toList
    note_id := note_id
    chunk_index := i
    document := c
    embedding := enc c
    subject := subject_name
    user_id := user_id
    title := title
    created_at := created_at }

/-- The `for i, chunk in enumerate(chunks)` loop body of `add_note_embeddings`:
skip blank chunks, embed the rest.  `encFails i` models `model.encode` raising
on the `i`-th chunk; `none` propagates the exception. -/
def buildEntries (encFails : Nat → Bool) (mk : Nat → List Char → NoteChunk) :
    List (List Char) → Nat → Option (List NoteChunk)
  | [], _ => some []
  | c :: cs, i =>
    if (pyStrip c).isEmpty then buildEntries encFails mk cs (i + 1)
    else if encFails i then none
    else
      match buildEntries encFails mk cs (i + 1) with
      | none => none
      | some es => some (mk i c :: es)

/-- `VectorEmbeddingService.add_note_embeddings`.  Note that the boolean result
of the initial `remove_note_embeddings` call is discarded, exactly as in the
source; `addFails` models `collection.add` raising. -/
def add_note_embeddings (enabled rmGetFails rmDelFails : Bool)
    (encFails : Nat → Bool) (enc : List Char → List ℚ) (addFails : Bool)
    (note_id : Nat) (title content subject_name : List Char) (user_id : Nat)
    (created_at : List Char) (s : Store) : Bool × Store :=
  if !enabled then (false, s)
  else
    let s1 := (remove_note_embeddings true rmGetFails rmDelFails note_id s).2
    let full_text := title ++ '\n' :: '\n' :: content
    let chunks := _chunk_text full_text 500 50
    match buildEntries encFails
        (mkChunkEntry enc note_id subject_name user_id title created_at) chunks 0 with
    | none => (false, s1)
    | some es =>
      if !es.isEmpty then
        if addFails then (false, s1) else (true, s1 ++ es)
      else (true, s1)

/-! ## Retriever: `VectorEmbeddingService.search_notes` -/

/-- One raw nearest-neighbour row from `collection.query`: document, metadata
and cosine distance. -/
structure Row where
  note_id : Nat
  title : List Char
  subject : List Char
  created_at : List Char
  document : List Char
  distance : ℚ
deriving DecidableEq, Repr

/-- A processed search hit, as placed in `note_results[note_id]`. -/
structure Hit where
  note_id : Nat
  title : List Char
  subject : List Char
  subject_name : List Char
  created_at : List Char
  relevance_score : ℚ
  matched_text : List Char
deriving DecidableEq, Repr

/-- `relevance_score = 1 - distance`. -/
def relOf (r : Row) : ℚ := qsub 1 r.distance

/-- The hit dictionary entry built for a row, including the 300-character
excerpt truncation. -/
def mkHit (r : Row) : Hit :=
  { note_id := r.note_id
    title := r.title
    subject := r.subject
    subject_name := r.subject
    created_at := r.created_at
    relevance_score := relOf r
    matched_text :=
      if 300 < r.document.length then r.document.take 300 ++ "...".toList
      else r.document }

/-- Lookup in an insertion-ordered Python dict keyed by `note_id`. -/
def dictFind (k : Nat) (d : List (Nat × Hit)) : Option Hit :=
  (d.find? (fun p => p.1 == k)).map (·.2)

/-- Python dict assignment `d[k] = h`: replace in place, or append a new key. -/
def dictUpd (k : Nat) (h : Hit) : List (Nat × Hit) → List (Nat × Hit)
  | [] => [(k, h)]
  | (k0, h0) :: t => if k0 == k then (k, h) :: t else (k0, h0) :: dictUpd k h t

/-- The deduplication loop body of `search_notes`: keep a row's hit when its
note is unseen or its relevance strictly beats the stored one. -/
def dedupStep (d : List (Nat × Hit)) (r : Row) : List (Nat × Hit) :=
  match dictFind r.note_id d with
  | none => dictUpd r.note_id (mkHit r) d
  | some h =>
    if h.relevance_score < relOf r then dictUpd r.note_id (mkHit r) d else d

/-- Specification helper for the deduplication loop: the first row for note
`k` whose relevance no later row strictly beats, i.e. the earliest row of `k`
attaining the maximal relevance.  Used to characterise `search_notes`. -/
def bestRow (k : Nat) : List Row → Option Row
  | [] => none
  | r :: rs =>
    if r.note_id == k then
      some
        (match bestRow k rs with
         | none => r
         | some b => if relOf r < relOf b then b else r)
    else bestRow k rs

/-- How one key's dictionary entry evolves over a block of rows: keep the old
hit unless some row strictly beats it. -/
def mergeHit : Option Hit → Option Row → Option Hit
  | o, none => o
  | none, some r => some (mkHit r)
  | some h, some r =>
    if h.relevance_score < relOf r then some (mkHit r) else some h

/-- `VectorEmbeddingService.search_notes`.  The `collection.query` result is
the oracle `rows` (already owner/subject-filtered and capped by the store). -/
def search_notes (enabled : Bool) (query : List Char) (rows : List Row)
    (n_results : Nat) : List Hit :=
  if !enabled then []
  else if (pyStrip query).isEmpty then []
  else
    let d := rows.foldl dedupStep []
    (sortDesc Hit.relevance_score (d.map (·.2))).take n_results

/-! ## `VectorEmbeddingService.get_similar_notes` and its disabled pipeline -/

/-- The smaller hit record of the `get_similar_notes` code. -/
structure SimHit where
  note_id : Nat
  title : List Char
  subject : List Char
  relevance_score : ℚ
deriving DecidableEq, Repr

/-- A metadata/distance row of the `collection.query` call inside the disabled
pipeline. -/
structure QRow where
  note_id : Nat
  title : List Char
  subject : List Char
  distance : ℚ
deriving DecidableEq, Repr

/-- `VectorEmbeddingService.get_similar_notes` as shipped: the method body
starts with `return []` (a stub left behind a "temporarily disable" TODO), so
everything after it is dead code. -/
def get_similar_notes (enabled : Bool) (s : Store) (note_id user_id n_results : Nat) :
    List SimHit :=
  if !enabled then []
  else
    let _ := s
    let _ := note_id
    let _ := user_id
    let _ := n_results
    []

def simDictFind (k : Nat) (d : List (Nat × SimHit)) : Option SimHit :=
  (d.find? (fun p => p.1 == k)).map (·.2)

def simDictUpd (k : Nat) (h : SimHit) : List (Nat × SimHit) → List (Nat × SimHit)
  | [] => [(k, h)]
  | (k0, h0) :: t => if k0 == k then (k, h) :: t else (k0, h0) :: simDictUpd k h t

def simRelOf (r : QRow) : ℚ := qsub 1 r.distance

def mkSimHit (r : QRow) : SimHit :=
  { note_id := r.note_id, title := r.title, subject := r.subject
    relevance_score := simRelOf r }

def simStep (ref_note_id : Nat) (d : List (Nat × SimHit)) (r : QRow) :
    List (Nat × SimHit) :=
  if r.note_id == ref_note_id then d
  else
    match simDictFind r.note_id d with
    | none => simDictUpd r.note_id (mkSimHit r) d
    | some h =>
      if h.relevance_score < simRelOf r then simDictUpd r.note_id (mkSimHit r) d else d

/-- The dead code of `get_similar_notes` after its early `return []` (lines
299-350): query with the first chunk's embedding, drop the reference note,
deduplicate, rank, truncate.  `queryRows v n` is the `collection.query` oracle
for query vector `v` and `n_results=n`. -/
def get_similar_notes_pipeline (s : Store)
    (queryRows : List ℚ → Nat → List QRow) (note_id user_id n_results : Nat) :
    List SimHit :=
  match (s : List NoteChunk).filter (fun e => e.note_id == note_id && e.user_id == user_id) with
  | [] => []
  | e :: _ =>
    let rows := queryRows e.embedding (n_results * 2)
    let d := rows.foldl (simStep note_id) []
    (sortDesc SimHit.relevance_score (d.map (·.2))).take n_results

/-! ## Subject resolver: `SubjectClassificationService._find_closest_subject_match` -/

/-- Strategy 1: exact match, case insensitive. -/
def strat1 (pl : List Char) (subjects : List (List Char)) : Option (List Char) :=
  subjects.find? (fun s => lowerS s == pl)

/-- Strategy 2: the prediction contains an available subject. -/
def strat2 (pl : List Char) (subjects : List (List Char)) : Option (List Char) :=
  subjects.find? (fun s => hasSub (lowerS s) pl)

/-- Strategy 3: an available subject contains the prediction. -/
def strat3 (pl : List Char) (subjects : List (List Char)) : Option (List Char) :=
  subjects.find? (fun s => hasSub pl (lowerS s))

/-- Strategy 4's `score > best_score` as a cross multiplication: against no
previous best (`best_score = 0.0`) any positive score wins; against `(c0, m0)`
compare `c/m > c0/m0`.  The Python float score `len(common)/max(...)` is kept
as the exact pair `(common, max)`. -/
def strat4Better (best : Option (List Char × Nat × Nat)) (c m : Nat) : Bool :=
  match best with
  | none => decide (0 < c)
  | some (_, c0, m0) => decide (c0 * m < c * m0)

def strat4Step (pw : List (List Char)) (best : Option (List Char × Nat × Nat))
    (s : List Char) : Option (List Char × Nat × Nat) :=
  let sw := (splitWS (lowerS s)).dedup
  let c := (pw.filter (fun w => sw.contains w)).length
  let m := max pw.length sw.length
  if c = 0 then best
  else if strat4Better best c m && decide (m ≤ 2 * c) then some (s, c, m) else best

def strat4 (pl : List Char) (subjects : List (List Char)) : Option (List Char) :=
  let pw := (splitWS pl).dedup
  (subjects.foldl (strat4Step pw) none).map (·.1)

/-- The `subject_mappings` synonym table of strategy 5. -/
def subject_mappings : List (List Char × List Char) :=
  [ ("ml".toList, "machine learning".toList)
  , ("ai".toList, "machine learning".toList)
  , ("artificial intelligence".toList, "machine learning".toList)
  , ("dl".toList, "deep learning".toList)
  , ("neural networks".toList, "deep learning".toList)
  , ("neural network".toList, "deep learning".toList)
  , ("literature".toList, "english".toList)
  , ("shakespeare".toList, "english".toList)
  , ("poetry".toList, "english".toList)
  , ("writing".toList, "english".toList)
  , ("math".toList, "mathematics".toList)
  , ("calculus".toList, "mathematics".toList)
  , ("algebra".toList, "mathematics".toList)
  , ("physics".toList, "physics".toList)
  , ("chemistry".toList, "chemistry".toList)
  , ("biology".toList, "biology".toList)
  , ("history".toList, "history".toList)
  , ("science".toList, "general science".toList) ]

/-- Strategy 5: map through the synonym table, then exact-match the target. -/
def strat5 (pl : List Char) (subjects : List (List Char)) : Option (List Char) :=
  match (subject_mappings.find? (fun p => p.1 == pl)).map (·.2) with
  | none => none
  | some mapped => subjects.find? (fun s => lowerS s == mapped)

/-- `SubjectClassificationService._find_closest_subject_match`: the five
strategies in order, first hit wins. -/
def _find_closest_subject_match (predicted : List Char)
    (subjects : List (List Char)) : Option (List Char) :=
  if predicted.isEmpty ∨ subjects.isEmpty then none
  else
    let pl := pyStrip (lowerS predicted)
    (strat1 pl subjects).orElse fun _ =>
    (strat2 pl subjects).orElse fun _ =>
    (strat3 pl subjects).orElse fun _ =>
    (strat4 pl subjects).orElse fun _ =>
    strat5 pl subjects

/-! ## `SubjectClassificationService.extract_keywords` / `classify_subject` -/

/-- `extract_keywords`.  `kwresp` is the LLM response (`none` = the call
raised, caught and turned into `[]`).  The `text` argument only feeds the
prompt. -/
def extract_keywords (enabled : Bool) (kwresp : Option (List Char))
    (text : List Char) : List (List Char) :=
  if !enabled then []
  else
    let _ := text
    match kwresp with
    | none => []
    | some r =>
      let keywords := (splitAll (fun c => c == ',') (pyStrip r)).map pyStrip
      ((keywords.take 10).map (fun k => lowerS (pyStrip k))).filter
        (fun k => !k.isEmpty ∧ 2 < k.length)

/-- The keyword fallback loop at the end of `classify_subject`. -/
def firstKwMatch : List (List Char) → List (List Char) → Option (List Char)
  | [], _ => none
  | k :: ks, subs =>
    match _find_closest_subject_match k subs with
    | some m => some m
    | none => firstKwMatch ks subs

/-- `SubjectClassificationService.classify_subject`.  `resp` is the LLM
response (`none` = the call raised, caught and turned into `None`). -/
def classify_subject (enabled : Bool) (resp kwresp : Option (List Char))
    (text : List Char) (available_subjects : List (List Char)) :
    Option (List Char) :=
  if !enabled ∨ available_subjects.isEmpty then none
  else
    match resp with
    | none => none
    | some r =>
      let predicted := pyStrip r
      if available_subjects.contains predicted then some predicted
      else if upperS predicted == "NONE".toList then none
      else
        match _find_closest_subject_match predicted available_subjects with
        | some m => some m
        | none =>
          firstKwMatch (extract_keywords true kwresp text) available_subjects

/-! ## Document classifier: `classify_multi_subject_text` -/

/-- The JSON values `json.loads` can produce. -/
inductive Json where
  | null : Json
  | bool : Bool → Json
  | num : ℚ → Json
  | str : List Char → Json
  | arr : List Json → Json
  | obj : List (List Char × Json) → Json
deriving Repr

/-- Key lookup in a JSON object as a Python dict (later duplicates win). -/
def jget (kvs : List (List Char × Json)) (k : List Char) : Option Json :=
  (kvs.reverse.find? (fun p => p.1 == k)).map (·.2)

/-- Does a parsed list element count as a record, i.e. is it an object with
both a `subject` and a `content` key? -/
def hasSubjectContent : Json → Bool
  | Json.obj kvs => (jget kvs "subject".toList).isSome && (jget kvs "content".toList).isSome
  | _ => false

/-- One output record of the classifier. -/
structure CRecord where
  subject : List Char
  title : List Char
  content : List Char
deriving DecidableEq, Repr

/-- `title[:57] + "..."` when over 60 characters. -/
def truncate60 (t : List Char) : List Char :=
  if 60 < t.length then t.take 57 ++ "...".toList else t

/-- Title synthesis from content inside the validated-item path: truncation is
applied only in the six-words branch there. -/
def synthTitleV (content currentDate : List Char) : List Char :=
  let content_words := splitWS (pyStrip content)
  if 5 ≤ content_words.length then truncate60 (joinWords (content_words.take 6))
  else currentDate ++ " Notes".toList

/-- Title synthesis in the two failure fallbacks: there the 60-character
truncation is applied after either branch. -/
def fbTitle (text currentDate : List Char) : List Char :=
  let content_words := splitWS (pyStrip text)
  truncate60
    (if 5 ≤ content_words.length then joinWords (content_words.take 6)
     else currentDate ++ " Notes".toList)

/-- The title cleanup of a validated item: strip a `"{subject} - "` or bare
leading subject, then synthesize when empty or meaningless. -/
def resolveTitle (subject t0 content currentDate : List Char) : List Char :=
  let t1 :=
    if hasPre (subject ++ " - ".toList) t0 then t0.drop (subject ++ " - ".toList).length
    else if hasPre subject t0 then lstripSet " -".toList (t0.drop subject.length)
    else t0
  if t1.isEmpty ∨ lowerS t1 == "notes".toList ∨ lowerS t1 == lowerS subject then
    synthTitleV content currentDate
  else truncate60 t1

/-- Subject resolution for one validated item (`csResp`/`kwResp` are the LLM
oracles of the nested `classify_subject` call, keyed by the content text; a
non-string content makes that call return `None` through its own handler). -/
def resolveSubject (csResp kwResp : List Char → Option (List Char))
    (subjects : List (List Char)) (s0 : List Char) (cv : Json) : List Char :=
  if subjects.contains s0 || s0 == "General".toList then s0
  else
    match _find_closest_subject_match s0 subjects with
    | some m => m
    | none =>
      let cs :=
        match cv with
        | Json.str c => classify_subject true (csResp c) (kwResp c) c subjects
        | _ => none
      match cs with
      | some m => m
      | none => "General".toList

/-- The title/content field extraction of a validated item.  A non-string
`title` or `content` value makes the Python loop raise (`.strip()` on a
non-str), modelled by `none` = exception. -/
def mkValidated (subject : List Char) (kvs : List (List Char × Json))
    (cv : Json) (currentDate : List Char) : Option (Option CRecord) :=
  match cv with
  | Json.str c =>
    match (jget kvs "title".toList).getD (Json.str []) with
    | Json.str t0raw =>
      some (some ⟨subject, resolveTitle subject (pyStrip t0raw) c currentDate, pyStrip c⟩)
    | _ => none
  | _ => none

/-- Processing of one element of the parsed JSON list.
`none` = the loop raised; `some none` = element skipped;
`some (some rec)` = element validated. -/
def processItem (csResp kwResp : List Char → Option (List Char))
    (subjects : List (List Char)) (currentDate : List Char) (item : Json) :
    Option (Option CRecord) :=
  match item with
  | Json.obj kvs =>
    match jget kvs "subject".toList, jget kvs "content".toList with
    | some sv, some cv =>
      match sv with
      | Json.str s0 => mkValidated (resolveSubject csResp kwResp subjects s0 cv) kvs cv currentDate
      | _ => none
    | _, _ => some none
  | _ => some none

/-- The whole validation loop; an exception anywhere discards every record. -/
def processItems (csResp kwResp : List Char → Option (List Char))
    (subjects : List (List Char)) (currentDate : List Char) :
    List Json → Option (List CRecord)
  | [] => some []
  | it :: its =>
    match processItem csResp kwResp subjects currentDate it with
    | none => none
    | some none => processItems csResp kwResp subjects currentDate its
    | some (some rec) =>
      (processItems csResp kwResp subjects currentDate its).map (rec :: ·)

/-- `response_text[start_idx:end_idx+1]` with `find('[')` and `rfind(']')`. -/
def sliceBrackets (l : List Char) : List Char :=
  match idxOf '[' l, lastIdxOf ']' l with
  | some i, some j => (l.take (j + 1)).drop i
  | _, _ => l

/-- The single-record fallback shared by the `JSONDecodeError` handler and the
outer exception handler of `classify_multi_subject_text`. -/
def fallbackRecord (csResp kwResp : List Char → Option (List Char))
    (text : List Char) (subjects : List (List Char)) (currentDate : List Char) :
    List CRecord :=
  let subject :=
    (classify_subject true (csResp text) (kwResp text) text subjects).getD "General".toList
  [⟨subject, fbTitle text currentDate, pyStrip text⟩]

/-- `SubjectClassificationService.classify_multi_subject_text`.
`resp` is the generation response (`none` = the call raised); `jparse` is the
`json.loads` oracle (`none` = `JSONDecodeError`); `csResp`/`kwResp` feed the
nested `classify_subject` calls, keyed by the text they are invoked on;
`currentDate` is `datetime.now().strftime(...)`. -/
def classify_multi_subject_text (enabled : Bool) (resp : Option (List Char))
    (jparse : List Char → Option Json)
    (csResp kwResp : List Char → Option (List Char))
    (text : List Char) (available_subjects : List (List Char))
    (currentDate : List Char) : List CRecord :=
  if !enabled ∨ available_subjects.isEmpty ∨ (pyStrip text).isEmpty then []
  else
    match resp with
    | none => fallbackRecord csResp kwResp text available_subjects currentDate
    | some rtext =>
      match jparse (sliceBrackets (pyStrip rtext)) with
      | none => fallbackRecord csResp kwResp text available_subjects currentDate
      | some j =>
        match j with
        | Json.arr items =>
          match processItems csResp kwResp available_subjects currentDate items with
          | none => fallbackRecord csResp kwResp text available_subjects currentDate
          | some recs => recs
        | Json.str _ => []
        | Json.obj _ => []
        | _ => fallbackRecord csResp kwResp text available_subjects currentDate

/-! ## Answer composer: `RAGChatbotService.search_and_answer` -/

/-- A basic source record returned to the web caller. -/
structure Src where
  note_id : Nat
  title : List Char
  relevance_score : ℚ
  excerpt : List Char
deriving DecidableEq, Repr

/-- A detailed source record for the desktop viewer. -/
structure SrcDetail where
  note_id : Nat
  title : List Char
  content : List Char
  subject : List Char
  created_at : List Char
  similarity_score : ℚ
deriving DecidableEq, Repr

/-- The return value of `search_and_answer`. -/
structure RagAnswer where
  answer : List Char
  sources : List Src
  sources_detailed : List SrcDetail
  confidence : ℚ
deriving Repr

/-- The relevance threshold `0.3` of the source filter. -/
def ragThreshold : ℚ := mkRat 3 10

def mkSrc (h : Hit) : Src :=
  { note_id := h.note_id
    title := h.title
    relevance_score := h.relevance_score
    excerpt :=
      if 150 < h.matched_text.length then h.matched_text.take 150 ++ "...".toList
      else h.matched_text }

def mkSrcDetail (h : Hit) : SrcDetail :=
  { note_id := h.note_id, title := h.title, content := h.matched_text
    subject := h.subject_name, created_at := h.created_at
    similarity_score := h.relevance_score }

/-- `RAGChatbotService.search_and_answer`.  The retrieval result is the oracle
`results` (what `search_notes` returned for the question); `answerText` is the
generation oracle of `_generate_answer`, which handles its own errors. -/
def search_and_answer (enabled : Bool) (answerText : List Char)
    (results : List Hit) (max_context_notes : Nat) : RagAnswer :=
  if !enabled then
    ⟨"Sorry, the chatbot service is currently unavailable.".toList, [], [], 0⟩
  else if results.isEmpty then
    ⟨("I couldn't find any relevant notes to answer your question. "
      ++ "Try asking about topics you have notes on.").toList, [], [], 0⟩
  else
    let good := results.filter (fun r => ragThreshold < r.relevance_score)
    ⟨answerText,
      (good.map mkSrc).take max_context_notes,
      (good.map mkSrcDetail).take max_context_notes,
      pyMin (results.map (·.relevance_score))⟩

/-! # Verification

First the general-purpose lemmas about the primitives, then one theorem per
claim (with explicit counterexamples where a claim fails on the code). -/

/-- `qsub` is ordinary rational subtraction (it is spelled via `mkRat` only so
that it evaluates by kernel reduction). -/
theorem qsub_eq_sub (a b : ℚ) : qsub a b = a - b := by
  unfold qsub
  rw [Rat.mkRat_eq_div]
  have ha : ((a.den : ℚ)) ≠ 0 := Nat.cast_ne_zero.mpr a.den_nz
  have hb : ((b.den : ℚ)) ≠ 0 := Nat.cast_ne_zero.mpr b.den_nz
  have hA : a * (a.den : ℚ) = (a.num : ℚ) := by
    have h := Rat.num_div_den a
    calc a * (a.den : ℚ) = ((a.num : ℚ) / (a.den : ℚ)) * (a.den : ℚ) := by rw [h]
      _ = (a.num : ℚ) := div_mul_cancel₀ _ ha
  have hB : b * (b.den : ℚ) = (b.num : ℚ) := by
    have h := Rat.num_div_den b
    calc b * (b.den : ℚ) = ((b.num : ℚ) / (b.den : ℚ)) * (b.den : ℚ) := by rw [h]
      _ = (b.num : ℚ) := div_mul_cancel₀ _ hb
  push_cast
  rw [div_eq_iff (mul_ne_zero ha hb), ← hA, ← hB]
  ring

/-- The source filter threshold is the literal `0.3`. -/
theorem ragThreshold_eq : ragThreshold = 3 / 10 := by
  show mkRat 3 10 = 3 / 10
  rw [Rat.mkRat_eq_div]
  norm_num

/-- `qmin` is `min`. -/
theorem qmin_eq_min (a b : ℚ) : qmin a b = min a b := by
  by_cases h : a ≤ b <;> simp [qmin, min_def, h]

theorem stripL_suffix (l : List Char) : stripL l <:+ l :=
  List.dropWhile_suffix _

theorem pyStrip_length_le (l : List Char) : (pyStrip l).length ≤ l.length := by
  have h1 : (pyStrip l).length ≤ (stripR l).length :=
    (List.dropWhile_sublist _).length_le
  have h2 : (stripR l).length ≤ l.length := by
    show ((l.reverse.dropWhile pyWS).reverse).length ≤ l.length
    rw [List.length_reverse]
    have := (List.dropWhile_sublist (l := l.reverse) pyWS).length_le
    simpa using this
  exact le_trans h1 h2

theorem dropWhile_head_false {p : Char → Bool} :
    ∀ (l : List Char) (x : Char) (xs : List Char),
      l.dropWhile p = x :: xs → p x = false := by
  intro l
  induction l with
  | nil => intro x xs h; simp at h
  | cons c cs ih =>
    intro x xs h
    rw [List.dropWhile_cons] at h
    by_cases hc : p c
    · rw [if_pos hc] at h; exact ih x xs h
    · rw [if_neg hc] at h
      cases h
      simpa using hc

theorem pyStrip_head (l : List Char) (x : Char) (xs : List Char)
    (h : pyStrip l = x :: xs) : pyWS x = false :=
  dropWhile_head_false (stripR l) x xs h

theorem stripR_reverse (l : List Char) :
    (stripR l).reverse = l.reverse.dropWhile pyWS := by
  show ((l.reverse.dropWhile pyWS).reverse).reverse = l.reverse.dropWhile pyWS
  rw [List.reverse_reverse]

theorem pyStrip_last (l : List Char) (x : Char) (xs : List Char)
    (h : (pyStrip l).reverse = x :: xs) : pyWS x = false := by
  have hsuf : pyStrip l <:+ stripR l := List.dropWhile_suffix _
  obtain ⟨t, ht⟩ := hsuf
  have hpre : ∃ rest, (pyStrip l).reverse ++ rest = (stripR l).reverse :=
    ⟨t.reverse, by rw [← ht, List.reverse_append]⟩
  obtain ⟨rest, hrest⟩ := hpre
  rw [h] at hrest
  rw [stripR_reverse] at hrest
  exact dropWhile_head_false l.reverse x (xs ++ rest) hrest.symm

/-- Stripping preserves a suffix whose first and last characters are not
whitespace. -/
theorem strip_keeps_suffix (s c : List Char) (hs : s <:+ c) (hne : s ≠ [])
    (hhead : ∀ x xs, s = x :: xs → pyWS x = false)
    (hlast : ∀ x xs, s.reverse = x :: xs → pyWS x = false) :
    s <:+ pyStrip c := by
  obtain ⟨t, ht⟩ := hs
  obtain ⟨x, xs, hx⟩ : ∃ x xs, s.reverse = x :: xs := by
    cases hsr : s.reverse with
    | nil => exact absurd (by simpa using congrArg List.reverse hsr) hne
    | cons y ys => exact ⟨y, ys, rfl⟩
  have hstepA : stripR c = c := by
    have hcrev : c.reverse = x :: (xs ++ t.reverse) := by
      rw [← ht, List.reverse_append, hx]; rfl
    show (c.reverse.dropWhile pyWS).reverse = c
    rw [hcrev, List.dropWhile_cons, hlast x xs hx]
    simp [← hcrev]
  obtain ⟨y, ys, hy⟩ : ∃ y ys, s = y :: ys := by
    cases s with
    | nil => exact absurd rfl hne
    | cons y ys => exact ⟨y, ys, rfl⟩
  have hdrop_s : s.dropWhile pyWS = s := by
    rw [hy, List.dropWhile_cons, hhead y ys hy]
    simp
  have hstepB : s <:+ stripL c := by
    show s <:+ c.dropWhile pyWS
    rw [← ht, List.dropWhile_append]
    by_cases he : ((t.dropWhile pyWS).isEmpty)
    · rw [if_pos he, hdrop_s]
    · rw [if_neg he]
      exact List.suffix_append _ _
  show s <:+ stripL (stripR c)
  rw [hstepA]
  exact hstepB

theorem insertDesc_perm {α : Type} (key : α → ℚ) (x : α) (l : List α) :
    List.Perm (insertDesc key x l) (x :: l) := by
  induction l with
  | nil => exact List.Perm.refl _
  | cons y ys ih =>
    show List.Perm (if key x < key y then y :: insertDesc key x ys else x :: y :: ys) _
    split
    · exact (ih.cons y).trans (List.Perm.swap x y ys)
    · exact List.Perm.refl _

theorem sortDesc_perm {α : Type} (key : α → ℚ) (l : List α) :
    List.Perm (sortDesc key l) l := by
  induction l with
  | nil => exact List.Perm.refl _
  | cons x xs ih => exact (insertDesc_perm key x (sortDesc key xs)).trans (ih.cons x)

theorem insertDesc_sorted {α : Type} (key : α → ℚ) (x : α) (l : List α)
    (h : l.Pairwise (fun a b => key b ≤ key a)) :
    (insertDesc key x l).Pairwise (fun a b => key b ≤ key a) := by
  induction l with
  | nil => simp [insertDesc]
  | cons y ys ih =>
    rw [List.pairwise_cons] at h
    obtain ⟨hy, hys⟩ := h
    show (if key x < key y then y :: insertDesc key x ys else x :: y :: ys).Pairwise _
    split
    · rename_i hlt
      rw [List.pairwise_cons]
      refine ⟨?_, ih hys⟩
      intro z hz
      rcases List.mem_cons.mp (((insertDesc_perm key x ys).mem_iff).mp hz) with hzx | hzys
      · rw [hzx]; exact le_of_lt hlt
      · exact hy z hzys
    · rename_i hnlt
      rw [List.pairwise_cons]
      refine ⟨?_, by rw [List.pairwise_cons]; exact ⟨hy, hys⟩⟩
      intro z hz
      rcases List.mem_cons.mp hz with hzy | hzys
      · rw [hzy]; exact le_of_not_lt hnlt
      · exact le_trans (hy z hzys) (le_of_not_lt hnlt)

theorem sortDesc_sorted {α : Type} (key : α → ℚ) (l : List α) :
    (sortDesc key l).Pairwise (fun a b => key b ≤ key a) := by
  induction l with
  | nil => simp [sortDesc]
  | cons x xs ih => exact insertDesc_sorted key x _ ih

theorem foldl_qmin_le (l : List ℚ) :
    ∀ a, l.foldl qmin a ≤ a ∧ ∀ x ∈ l, l.foldl qmin a ≤ x := by
  induction l with
  | nil => intro a; exact ⟨le_refl a, by simp⟩
  | cons x xs ih =>
    intro a
    have hmin1 : qmin a x ≤ a := by
      unfold qmin; split
      · exact le_refl a
      · exact le_of_not_le (by assumption)
    have hmin2 : qmin a x ≤ x := by
      unfold qmin; split
      · assumption
      · exact le_refl x
    obtain ⟨h1, h2⟩ := ih (qmin a x)
    rw [List.foldl_cons]
    refine ⟨le_trans h1 hmin1, ?_⟩
    intro z hz
    rcases List.mem_cons.mp hz with hzx | hzxs
    · rw [hzx]; exact le_trans h1 hmin2
    · exact h2 z hzxs

theorem foldl_qmin_mem (l : List ℚ) :
    ∀ a, l.foldl qmin a = a ∨ l.foldl qmin a ∈ l := by
  induction l with
  | nil => intro a; left; rfl
  | cons x xs ih =>
    intro a
    rw [List.foldl_cons]
    rcases ih (qmin a x) with h | h
    · rw [h]
      unfold qmin
      split
      · left; rfl
      · right; exact List.mem_cons_self x xs
    · right; exact List.mem_cons_of_mem x h

theorem pyMin_le (l : List ℚ) (x : ℚ) (hx : x ∈ l) : pyMin l ≤ x := by
  cases l with
  | nil => simp at hx
  | cons y ys =>
    show ys.foldl qmin y ≤ x
    rcases List.mem_cons.mp hx with h | h
    · rw [h]; exact (foldl_qmin_le ys y).1
    · exact (foldl_qmin_le ys y).2 x h

theorem pyMin_mem (l : List ℚ) (h : l ≠ []) : pyMin l ∈ l := by
  cases l with
  | nil => exact absurd rfl h
  | cons y ys =>
    rcases foldl_qmin_mem ys y with h1 | h1
    · show ys.foldl qmin y ∈ _
      rw [h1]; exact List.mem_cons_self y ys
    · exact List.mem_cons_of_mem y h1

/-! ## Dictionary and deduplication lemmas for `search_notes` -/

theorem dictFind_nil (k : Nat) : dictFind k [] = none := rfl

theorem dictFind_cons_eq (k0 : Nat) (h0 : Hit) (t : List (Nat × Hit)) (k : Nat)
    (hk : k0 = k) : dictFind k ((k0, h0) :: t) = some h0 := by
  unfold dictFind
  rw [List.find?_cons_of_pos _ (by simp [hk])]
  rfl

theorem dictFind_cons_ne (k0 : Nat) (h0 : Hit) (t : List (Nat × Hit)) (k : Nat)
    (hk : k0 ≠ k) : dictFind k ((k0, h0) :: t) = dictFind k t := by
  unfold dictFind
  rw [List.find?_cons_of_neg _ (by simp [hk])]

theorem dictUpd_cons_eq (k : Nat) (h : Hit) (k0 : Nat) (h0 : Hit)
    (t : List (Nat × Hit)) (hk : k0 = k) :
    dictUpd k h ((k0, h0) :: t) = (k, h) :: t := by
  show (if k0 == k then (k, h) :: t else (k0, h0) :: dictUpd k h t) = _
  rw [if_pos (by simp [hk])]

theorem dictUpd_cons_ne (k : Nat) (h : Hit) (k0 : Nat) (h0 : Hit)
    (t : List (Nat × Hit)) (hk : k0 ≠ k) :
    dictUpd k h ((k0, h0) :: t) = (k0, h0) :: dictUpd k h t := by
  show (if k0 == k then (k, h) :: t else (k0, h0) :: dictUpd k h t) = _
  rw [if_neg (by simp [hk])]

theorem dictFind_upd_self (k : Nat) (h : Hit) (d : List (Nat × Hit)) :
    dictFind k (dictUpd k h d) = some h := by
  induction d with
  | nil => exact dictFind_cons_eq k h [] k rfl
  | cons p t ih =>
    obtain ⟨k0, h0⟩ := p
    by_cases hk : k0 = k
    · rw [dictUpd_cons_eq k h k0 h0 t hk, dictFind_cons_eq k h t k rfl]
    · rw [dictUpd_cons_ne k h k0 h0 t hk, dictFind_cons_ne k0 h0 _ k hk]
      exact ih

theorem dictFind_upd_ne (k k' : Nat) (hne : k' ≠ k) (h : Hit)
    (d : List (Nat × Hit)) : dictFind k' (dictUpd k h d) = dictFind k' d := by
  induction d with
  | nil =>
    rw [show dictUpd k h [] = [(k, h)] from rfl,
      dictFind_cons_ne k h [] k' (Ne.symm hne), dictFind_nil]
  | cons p t ih =>
    obtain ⟨k0, h0⟩ := p
    by_cases hk : k0 = k
    · rw [dictUpd_cons_eq k h k0 h0 t hk,
        dictFind_cons_ne k h t k' (Ne.symm hne),
        dictFind_cons_ne k0 h0 t k' (hk ▸ Ne.symm hne)]
    · rw [dictUpd_cons_ne k h k0 h0 t hk]
      by_cases hk' : k0 = k'
      · rw [dictFind_cons_eq k0 h0 _ k' hk', dictFind_cons_eq k0 h0 t k' hk']
      · rw [dictFind_cons_ne k0 h0 _ k' hk', dictFind_cons_ne k0 h0 t k' hk']
        exact ih

theorem dictFind_eq_none_iff (k : Nat) (d : List (Nat × Hit)) :
    dictFind k d = none ↔ k ∉ d.map Prod.fst := by
  induction d with
  | nil => simp [dictFind]
  | cons p t ih =>
    obtain ⟨k0, h0⟩ := p
    by_cases hk : k0 = k
    · rw [dictFind_cons_eq k0 h0 t k hk]
      simp [hk]
    · rw [dictFind_cons_ne k0 h0 t k hk, List.map_cons]
      rw [ih]
      constructor
      · intro hmem hcon
        rcases List.mem_cons.mp hcon with hx | hx
        · exact hk hx.symm
        · exact hmem hx
      · intro hmem hx
        exact hmem (List.mem_cons_of_mem _ hx)

theorem dictUpd_fst_mem (k : Nat) (h : Hit) (d : List (Nat × Hit))
    (hmem : k ∈ d.map Prod.fst) :
    (dictUpd k h d).map Prod.fst = d.map Prod.fst := by
  induction d with
  | nil => simp at hmem
  | cons p t ih =>
    obtain ⟨k0, h0⟩ := p
    by_cases hk : k0 = k
    · rw [dictUpd_cons_eq k h k0 h0 t hk]
      simp [hk]
    · rw [dictUpd_cons_ne k h k0 h0 t hk]
      have hmem' : k ∈ t.map Prod.fst := by
        rw [List.map_cons] at hmem
        rcases List.mem_cons.mp hmem with hx | hx
        · exact absurd hx.symm hk
        · exact hx
      rw [List.map_cons, List.map_cons, ih hmem']

theorem dictUpd_fst_not_mem (k : Nat) (h : Hit) (d : List (Nat × Hit))
    (hmem : k ∉ d.map Prod.fst) :
    (dictUpd k h d).map Prod.fst = d.map Prod.fst ++ [k] := by
  induction d with
  | nil => simp [dictUpd]
  | cons p t ih =>
    obtain ⟨k0, h0⟩ := p
    have hk : k0 ≠ k := by
      intro hx
      exact hmem (by rw [List.map_cons, hx]; exact List.mem_cons_self _ _)
    rw [dictUpd_cons_ne k h k0 h0 t hk]
    have hmem' : k ∉ t.map Prod.fst := by
      intro hx
      exact hmem (by rw [List.map_cons]; exact List.mem_cons_of_mem _ hx)
    rw [List.map_cons, List.map_cons, ih hmem', List.cons_append]

theorem dictUpd_mem (k : Nat) (h : Hit) (d : List (Nat × Hit)) :
    ∀ p ∈ dictUpd k h d, p = (k, h) ∨ p ∈ d := by
  induction d with
  | nil =>
    intro p hp
    rw [show dictUpd k h [] = [(k, h)] from rfl] at hp
    left
    simpa using hp
  | cons q t ih =>
    obtain ⟨k0, h0⟩ := q
    intro p hp
    by_cases hk : k0 = k
    · rw [dictUpd_cons_eq k h k0 h0 t hk] at hp
      rcases List.mem_cons.mp hp with hx | hx
      · left; exact hx
      · right; exact List.mem_cons_of_mem _ hx
    · rw [dictUpd_cons_ne k h k0 h0 t hk] at hp
      rcases List.mem_cons.mp hp with hx | hx
      · right; rw [hx]; exact List.mem_cons_self _ _
      · rcases ih p hx with hy | hy
        · left; exact hy
        · right; exact List.mem_cons_of_mem _ hy

theorem dictFind_of_mem (d : List (Nat × Hit)) (hnd : (d.map Prod.fst).Nodup)
    (k : Nat) (h : Hit) (hm : (k, h) ∈ d) : dictFind k d = some h := by
  induction d with
  | nil => simp at hm
  | cons p t ih =>
    obtain ⟨k0, h0⟩ := p
    rcases List.mem_cons.mp hm with hx | hx
    · have hk : k = k0 := congrArg Prod.fst hx
      have hh : h = h0 := congrArg Prod.snd hx
      rw [dictFind_cons_eq k0 h0 t k hk.symm, hh]
    · have hk : k0 ≠ k := by
        intro he
        have hmem : k ∈ t.map Prod.fst := List.mem_map.mpr ⟨(k, h), hx, rfl⟩
        rw [List.map_cons, List.nodup_cons] at hnd
        exact hnd.1 (he ▸ hmem)
      rw [dictFind_cons_ne k0 h0 t k hk]
      rw [List.map_cons, List.nodup_cons] at hnd
      exact ih hnd.2 hx

theorem mergeHit_none_right (o : Option Hit) : mergeHit o none = o := by
  cases o <;> rfl

theorem mergeHit_none_some (r : Row) : mergeHit none (some r) = some (mkHit r) := rfl

theorem mergeHit_some_some (h : Hit) (r : Row) :
    mergeHit (some h) (some r) =
      if h.relevance_score < relOf r then some (mkHit r) else some h := rfl

theorem dedupStep_eq (d : List (Nat × Hit)) (r : Row) :
    dedupStep d r =
      match dictFind r.note_id d with
      | none => dictUpd r.note_id (mkHit r) d
      | some h =>
        if h.relevance_score < relOf r then dictUpd r.note_id (mkHit r) d else d := rfl

theorem dictFind_dedupStep_ne (d : List (Nat × Hit)) (r : Row) (k : Nat)
    (hk : k ≠ r.note_id) : dictFind k (dedupStep d r) = dictFind k d := by
  rw [dedupStep_eq]
  cases hf : dictFind r.note_id d with
  | none =>
    exact dictFind_upd_ne _ _ hk _ _
  | some h0 =>
    show dictFind k (if h0.relevance_score < relOf r then dictUpd r.note_id (mkHit r) d else d) = _
    split
    · exact dictFind_upd_ne _ _ hk _ _
    · rfl

theorem dictFind_dedupStep_eq (d : List (Nat × Hit)) (r : Row) :
    dictFind r.note_id (dedupStep d r) = mergeHit (dictFind r.note_id d) (some r) := by
  rw [dedupStep_eq]
  cases hf : dictFind r.note_id d with
  | none =>
    rw [mergeHit_none_some]
    exact dictFind_upd_self _ _ _
  | some h0 =>
    rw [mergeHit_some_some]
    show dictFind r.note_id (if h0.relevance_score < relOf r then dictUpd r.note_id (mkHit r) d else d) = _
    split
    · exact dictFind_upd_self _ _ _
    · exact hf

theorem bestRow_cons_ne (k : Nat) (r : Row) (rs : List Row) (h : r.note_id ≠ k) :
    bestRow k (r :: rs) = bestRow k rs := by
  conv_lhs => rw [bestRow]
  rw [if_neg (by simp [h])]

theorem bestRow_cons_eq (k : Nat) (r : Row) (rs : List Row) (h : r.note_id = k) :
    bestRow k (r :: rs) =
      some (match bestRow k rs with
            | none => r
            | some b => if relOf r < relOf b then b else r) := by
  conv_lhs => rw [bestRow]
  rw [if_pos (by simp [h])]

theorem bestRow_cons_eq_none (k : Nat) (r : Row) (rs : List Row)
    (h : r.note_id = k) (hrs : bestRow k rs = none) :
    bestRow k (r :: rs) = some r := by
  rw [bestRow_cons_eq k r rs h, hrs]

theorem bestRow_cons_eq_some (k : Nat) (r : Row) (rs : List Row) (b : Row)
    (h : r.note_id = k) (hrs : bestRow k rs = some b) :
    bestRow k (r :: rs) = some (if relOf r < relOf b then b else r) := by
  rw [bestRow_cons_eq k r rs h, hrs]

theorem bestRow_none (k : Nat) :
    ∀ rows, bestRow k rows = none → ∀ r ∈ rows, r.note_id ≠ k := by
  intro rows
  induction rows with
  | nil => intro _ r hr; simp at hr
  | cons x xs ih =>
    intro hb r hr
    by_cases hx : x.note_id = k
    · rw [bestRow_cons_eq k x xs hx] at hb
      exact absurd hb (by simp)
    · rw [bestRow_cons_ne k x xs hx] at hb
      rcases List.mem_cons.mp hr with h1 | h1
      · rw [h1]; exact hx
      · exact ih hb r h1

theorem foldl_dedup_find (rows : List Row) :
    ∀ (d : List (Nat × Hit)) (k : Nat),
      dictFind k (rows.foldl dedupStep d) = mergeHit (dictFind k d) (bestRow k rows) := by
  induction rows with
  | nil =>
    intro d k
    show dictFind k d = mergeHit (dictFind k d) none
    rw [mergeHit_none_right]
  | cons r rs ih =>
    intro d k
    rw [List.foldl_cons, ih (dedupStep d r) k]
    by_cases hk : k = r.note_id
    · subst hk
      rw [dictFind_dedupStep_eq]
      have hmr : (mkHit r).relevance_score = relOf r := rfl
      cases hbb : bestRow r.note_id rs with
      | none =>
        rw [mergeHit_none_right, bestRow_cons_eq_none r.note_id r rs rfl hbb]
      | some b =>
        rw [bestRow_cons_eq_some r.note_id r rs b rfl hbb]
        cases hfd : dictFind r.note_id d with
        | none =>
          rw [mergeHit_none_some, mergeHit_some_some, mergeHit_none_some, hmr]
          by_cases hc : relOf r < relOf b
          · rw [if_pos hc, if_pos hc]
          · rw [if_neg hc, if_neg hc]
        | some h0 =>
          rw [mergeHit_some_some]
          by_cases h1 : h0.relevance_score < relOf r <;> by_cases h2 : relOf r < relOf b
          · rw [if_pos h1, if_pos h2, mergeHit_some_some, mergeHit_some_some, hmr,
              if_pos h2, if_pos (lt_trans h1 h2)]
          · rw [if_pos h1, if_neg h2, mergeHit_some_some, mergeHit_some_some, hmr,
              if_neg h2, if_pos h1]
          · rw [if_neg h1, if_pos h2]
          · rw [if_neg h1, if_neg h2, mergeHit_some_some, mergeHit_some_some,
              if_neg (by exact not_lt.mpr (le_trans (not_lt.mp h2) (not_lt.mp h1))),
              if_neg h1]
    · rw [dictFind_dedupStep_ne d r k hk, bestRow_cons_ne k r rs (fun hx => hk hx.symm)]

theorem bestRow_spec (k : Nat) :
    ∀ (rows : List Row) (b : Row), bestRow k rows = some b →
      b.note_id = k ∧ ∃ i, ∃ hi : i < rows.length,
        rows.get ⟨i, hi⟩ = b ∧
        ∀ j, ∀ hj : j < rows.length, (rows.get ⟨j, hj⟩).note_id = k →
          relOf (rows.get ⟨j, hj⟩) ≤ relOf b ∧
          (relOf (rows.get ⟨j, hj⟩) = relOf b → i ≤ j) := by
  intro rows
  induction rows with
  | nil =>
    intro b hb
    exact absurd hb (by rw [show bestRow k [] = none from rfl]; simp)
  | cons r rs ih =>
    intro b hb
    by_cases hr : r.note_id = k
    · cases hbb : bestRow k rs with
      | none =>
        rw [bestRow_cons_eq_none k r rs hr hbb] at hb
        have hrb : r = b := by injection hb
        subst hrb
        refine ⟨hr, 0, Nat.succ_pos _, rfl, ?_⟩
        intro j hj hjk
        cases j with
        | zero => exact ⟨le_refl _, fun _ => Nat.le_refl 0⟩
        | succ j' =>
          have hj' : j' < rs.length := Nat.lt_of_succ_lt_succ hj
          exact absurd hjk (bestRow_none k rs hbb _ (rs.get_mem j' hj'))
      | some b' =>
        by_cases hlt : relOf r < relOf b'
        · rw [bestRow_cons_eq_some k r rs b' hr hbb, if_pos hlt] at hb
          have hb'b : b' = b := by injection hb
          subst hb'b
          obtain ⟨hbk, i, hi, hget, hmax⟩ := ih b' hbb
          refine ⟨hbk, i + 1, Nat.succ_lt_succ hi, hget, ?_⟩
          intro j hj hjk
          cases j with
          | zero =>
            refine ⟨le_of_lt hlt, ?_⟩
            intro heq
            exact absurd heq (ne_of_lt hlt)
          | succ j' =>
            have hj' : j' < rs.length := Nat.lt_of_succ_lt_succ hj
            obtain ⟨hle, heq⟩ := hmax j' hj' hjk
            exact ⟨hle, fun he => Nat.succ_le_succ (heq he)⟩
        · rw [bestRow_cons_eq_some k r rs b' hr hbb, if_neg hlt] at hb
          have hrb : r = b := by injection hb
          subst hrb
          obtain ⟨hbk', i, hi, hget, hmax⟩ := ih b' hbb
          refine ⟨hr, 0, Nat.succ_pos _, rfl, ?_⟩
          intro j hj hjk
          cases j with
          | zero => exact ⟨le_refl _, fun _ => Nat.le_refl 0⟩
          | succ j' =>
            have hj' : j' < rs.length := Nat.lt_of_succ_lt_succ hj
            obtain ⟨hle, _⟩ := hmax j' hj' hjk
            exact ⟨le_trans hle (not_lt.mp hlt), fun _ => Nat.zero_le _⟩
    · rw [bestRow_cons_ne k r rs hr] at hb
      obtain ⟨hbk, i, hi, hget, hmax⟩ := ih b hb
      refine ⟨hbk, i + 1, Nat.succ_lt_succ hi, hget, ?_⟩
      intro j hj hjk
      cases j with
      | zero => exact absurd hjk hr
      | succ j' =>
        have hj' : j' < rs.length := Nat.lt_of_succ_lt_succ hj
        obtain ⟨hle, heq⟩ := hmax j' hj' hjk
        exact ⟨hle, fun he => Nat.succ_le_succ (heq he)⟩

theorem dedupStep_snd_id (d : List (Nat × Hit)) (r : Row)
    (h : ∀ p ∈ d, (p.2).note_id = p.1) :
    ∀ p ∈ dedupStep d r, (p.2).note_id = p.1 := by
  intro p hp
  rw [dedupStep_eq] at hp
  cases hf : dictFind r.note_id d with
  | none =>
    rw [hf] at hp
    have hp' : p ∈ dictUpd r.note_id (mkHit r) d := hp
    rcases dictUpd_mem _ _ _ p hp' with hx | hx
    · rw [hx]; rfl
    · exact h p hx
  | some h0 =>
    rw [hf] at hp
    have hp' : p ∈ if h0.relevance_score < relOf r then
        dictUpd r.note_id (mkHit r) d else d := hp
    by_cases hc : h0.relevance_score < relOf r
    · rw [if_pos hc] at hp'
      rcases dictUpd_mem _ _ _ p hp' with hx | hx
      · rw [hx]; rfl
      · exact h p hx
    · rw [if_neg hc] at hp'
      exact h p hp'

theorem dedupStep_fst_nodup (d : List (Nat × Hit)) (r : Row)
    (h : (d.map Prod.fst).Nodup) :
    ((dedupStep d r).map Prod.fst).Nodup := by
  rw [dedupStep_eq]
  cases hf : dictFind r.note_id d with
  | none =>
    show ((dictUpd r.note_id (mkHit r) d).map Prod.fst).Nodup
    have hkn : r.note_id ∉ d.map Prod.fst := (dictFind_eq_none_iff _ _).mp hf
    rw [dictUpd_fst_not_mem _ _ _ hkn, List.nodup_append]
    refine ⟨h, List.nodup_singleton _, ?_⟩
    intro a ha hb
    rw [List.mem_singleton] at hb
    subst hb
    exact hkn ha
  | some h0 =>
    show ((if h0.relevance_score < relOf r then
        dictUpd r.note_id (mkHit r) d else d).map Prod.fst).Nodup
    have hkm : r.note_id ∈ d.map Prod.fst := by
      by_contra hc
      rw [← dictFind_eq_none_iff] at hc
      rw [hf] at hc
      exact absurd hc (by simp)
    by_cases hc : h0.relevance_score < relOf r
    · rw [if_pos hc, dictUpd_fst_mem _ _ _ hkm]
      exact h
    · rw [if_neg hc]
      exact h

theorem foldl_dedup_snd_id (rows : List Row) :
    ∀ d, (∀ p ∈ d, (p.2).note_id = p.1) →
      ∀ p ∈ rows.foldl dedupStep d, (p.2).note_id = p.1 := by
  induction rows with
  | nil => intro d h; exact h
  | cons r rs ih =>
    intro d h
    rw [List.foldl_cons]
    exact ih (dedupStep d r) (dedupStep_snd_id d r h)

theorem foldl_dedup_fst_nodup (rows : List Row) :
    ∀ d, (d.map Prod.fst).Nodup →
      ((rows.foldl dedupStep d).map Prod.fst).Nodup := by
  induction rows with
  | nil => intro d h; exact h
  | cons r rs ih =>
    intro d h
    rw [List.foldl_cons]
    exact ih (dedupStep d r) (dedupStep_fst_nodup d r h)

theorem search_notes_blank (query : List Char) (rows : List Row) (n : Nat)
    (hq : (pyStrip query).isEmpty = true) :
    search_notes true query rows n = [] := by
  unfold search_notes
  rw [if_neg (by simp), if_pos (by simp [hq])]

theorem search_notes_eq (query : List Char) (rows : List Row) (n : Nat)
    (hq : (pyStrip query).isEmpty = false) :
    search_notes true query rows n =
      (sortDesc Hit.relevance_score ((rows.foldl dedupStep []).map (·.2))).take n := by
  unfold search_notes
  rw [if_neg (by simp), if_neg (by simp [hq])]

/-! ## Chunker invariant for the amended length bound -/

theorem lastN_length (n : Nat) (l : List Char) (h : n < l.length) :
    (lastN n l).length = n := by
  unfold lastN
  rw [List.length_drop]
  omega

/-- Flushing the running buffer keeps the invariant: a buffer chunk is either
within `chunk_size + overlap + 1` characters or carries an oversized stripped
sentence of `L` as an infix. -/
theorem strip_cur_good (cs ov : Nat) (L : List (List Char)) (cur : List Char)
    (hcur : cur = [] ∨ cur.length ≤ cs + ov + 1 ∨
      ∃ s ∈ L, cs < (pyStrip s).length ∧ pyStrip s <:+ cur) :
    (pyStrip cur).length ≤ cs + ov + 1 ∨
      ∃ s ∈ L, cs < (pyStrip s).length ∧ pyStrip s <:+: pyStrip cur := by
  rcases hcur with hnil | hlen | ⟨s, hsL, hslen, hsuf⟩
  · left
    rw [hnil]
    show (pyStrip []).length ≤ cs + ov + 1
    simp [pyStrip, stripL, stripR]
  · left
    exact le_trans (pyStrip_length_le cur) hlen
  · right
    refine ⟨s, hsL, hslen, ?_⟩
    have hne : pyStrip s ≠ [] := List.ne_nil_of_length_pos (Nat.lt_of_le_of_lt (Nat.zero_le cs) hslen)
    exact List.IsSuffix.isInfix (strip_keeps_suffix (pyStrip s) cur hsuf hne
      (fun x xs h => pyStrip_head s x xs h)
      (fun x xs h => pyStrip_last s x xs h))

theorem chunkStep_invariant (cs ov : Nat) (L : List (List Char))
    (raw : List Char) (hraw : raw ∈ L) (acc : List (List Char)) (cur : List Char)
    (hacc : ∀ c ∈ acc, c.length ≤ cs + ov + 1 ∨
      ∃ s ∈ L, cs < (pyStrip s).length ∧ pyStrip s <:+: c)
    (hcur : cur = [] ∨ cur.length ≤ cs + ov + 1 ∨
      ∃ s ∈ L, cs < (pyStrip s).length ∧ pyStrip s <:+ cur) :
    (∀ c ∈ (chunkStep cs ov (acc, cur) raw).1, c.length ≤ cs + ov + 1 ∨
      ∃ s ∈ L, cs < (pyStrip s).length ∧ pyStrip s <:+: c)
    ∧ ((chunkStep cs ov (acc, cur) raw).2 = [] ∨
       (chunkStep cs ov (acc, cur) raw).2.length ≤ cs + ov + 1 ∨
       ∃ s ∈ L, cs < (pyStrip s).length ∧
         pyStrip s <:+ (chunkStep cs ov (acc, cur) raw).2) := by
  have hfresh : ∀ cur' : List Char, cur' = pyStrip raw →
      cur' = [] ∨ cur'.length ≤ cs + ov + 1 ∨
      ∃ s ∈ L, cs < (pyStrip s).length ∧ pyStrip s <:+ cur' := by
    intro cur' hcur'
    by_cases hlen : (pyStrip raw).length ≤ cs
    · right; left; rw [hcur']; omega
    · right; right
      exact ⟨raw, hraw, not_le.mp hlen, hcur' ▸ List.suffix_refl _⟩
  by_cases hs : (pyStrip raw).isEmpty
  · have hstep : chunkStep cs ov (acc, cur) raw = (acc, cur) := by
      simp [chunkStep, hs]
    rw [hstep]
    exact ⟨hacc, hcur⟩
  · have hs' : (pyStrip raw).isEmpty = false := by simpa using hs
    by_cases hflush : cs < cur.length + (pyStrip raw).length ∧ ¬cur.isEmpty
    · have hstep : chunkStep cs ov (acc, cur) raw =
          (acc ++ [pyStrip cur],
           if 0 < ov ∧ ov < cur.length then lastN ov cur ++ ' ' :: pyStrip raw
           else pyStrip raw) := by
        simp [chunkStep, hs', hflush]
      rw [hstep]
      constructor
      · intro c hc
        rcases List.mem_append.mp hc with hc1 | hc2
        · exact hacc c hc1
        · rw [List.mem_singleton] at hc2
          rw [hc2]
          exact strip_cur_good cs ov L cur hcur
      · by_cases hov : 0 < ov ∧ ov < cur.length
        · rw [if_pos hov]
          by_cases hlen : (pyStrip raw).length ≤ cs
          · right; left
            show (lastN ov cur ++ ' ' :: pyStrip raw).length ≤ cs + ov + 1
            rw [List.length_append, lastN_length ov cur hov.2]
            simp only [List.length_cons]
            omega
          · right; right
            refine ⟨raw, hraw, not_le.mp hlen, ?_⟩
            exact ⟨lastN ov cur ++ [' '], by simp⟩
        · rw [if_neg hov]
          exact hfresh _ rfl
    · have hstep : chunkStep cs ov (acc, cur) raw =
          (acc, if cur.isEmpty then pyStrip raw else cur ++ ' ' :: pyStrip raw) := by
        simp only [chunkStep, hs', Bool.false_eq_true, if_false]
        rw [if_neg hflush]
      rw [hstep]
      refine ⟨hacc, ?_⟩
      by_cases hemp : cur.isEmpty
      · rw [if_pos hemp]
        exact hfresh _ rfl
      · rw [if_neg hemp]
        have hfit : cur.length + (pyStrip raw).length ≤ cs := by
          rcases not_and_or.mp hflush with h1 | h2
          · exact not_lt.mp h1
          · exact absurd (not_not.mp h2) hemp
        right; left
        rw [List.length_append]
        simp only [List.length_cons]
        omega

theorem chunkFold_invariant (cs ov : Nat) (L : List (List Char)) :
    ∀ (sl : List (List Char)), (∀ x ∈ sl, x ∈ L) →
      ∀ (acc : List (List Char)) (cur : List Char),
        (∀ c ∈ acc, c.length ≤ cs + ov + 1 ∨
          ∃ s ∈ L, cs < (pyStrip s).length ∧ pyStrip s <:+: c) →
        (cur = [] ∨ cur.length ≤ cs + ov + 1 ∨
          ∃ s ∈ L, cs < (pyStrip s).length ∧ pyStrip s <:+ cur) →
        (∀ c ∈ (sl.foldl (chunkStep cs ov) (acc, cur)).1,
            c.length ≤ cs + ov + 1 ∨
            ∃ s ∈ L, cs < (pyStrip s).length ∧ pyStrip s <:+: c)
        ∧ ((sl.foldl (chunkStep cs ov) (acc, cur)).2 = [] ∨
           (sl.foldl (chunkStep cs ov) (acc, cur)).2.length ≤ cs + ov + 1 ∨
           ∃ s ∈ L, cs < (pyStrip s).length ∧
             pyStrip s <:+ (sl.foldl (chunkStep cs ov) (acc, cur)).2) := by
  intro sl
  induction sl with
  | nil =>
    intro _ acc cur hacc hcur
    exact ⟨hacc, hcur⟩
  | cons x xs ih =>
    intro hsub acc cur hacc hcur
    rw [List.foldl_cons]
    have hx : x ∈ L := hsub x (List.mem_cons_self _ _)
    have hstep := chunkStep_invariant cs ov L x hx acc cur hacc hcur
    have hsub' : ∀ y ∈ xs, y ∈ L := fun y hy => hsub y (List.mem_cons_of_mem _ hy)
    have := ih hsub' (chunkStep cs ov (acc, cur) x).1 (chunkStep cs ov (acc, cur) x).2
      hstep.1 hstep.2
    simpa using this

/-- C5 (amended): every chunk returned by the chunker has length at most
`max_chars + overlap_chars + 1` (the `+1` pays for the joining space, the
`+overlap_chars` for the seeded overlap region), except a chunk that contains
a single stripped sentence longer than `max_chars` as an infix, which is
emitted oversized rather than truncated or further split. -/
theorem C5_amended_chunk_length_bound (text : List Char) (cs ov : Nat) :
    ∀ c ∈ _chunk_text text cs ov,
      c.length ≤ cs + ov + 1 ∨
      ∃ raw ∈ splitRuns sentenceSep text,
        cs < (pyStrip raw).length ∧ pyStrip raw <:+: c := by
  intro c hc
  unfold _chunk_text at hc
  by_cases hshort : text.isEmpty ∨ text.length < cs
  · rw [if_pos hshort] at hc
    rw [List.mem_singleton] at hc
    subst hc
    left
    rcases hshort with h1 | h2
    · rw [List.isEmpty_iff.mp h1]
      simp
    · omega
  · rw [if_neg hshort] at hc
    have hinv := chunkFold_invariant cs ov (splitRuns sentenceSep text)
      (splitRuns sentenceSep text) (fun x hx => hx) [] []
      (by intro c hc; simp at hc) (Or.inl rfl)
    set st := (splitRuns sentenceSep text).foldl (chunkStep cs ov) ([], []) with hst
    by_cases hflush : ¬(pyStrip st.2).isEmpty
    · rw [if_pos hflush] at hc
      rcases List.mem_append.mp hc with hc1 | hc2
      · exact hinv.1 c hc1
      · rw [List.mem_singleton] at hc2
        rw [hc2]
        exact strip_cur_good cs ov (splitRuns sentenceSep text) st.2 hinv.2
    · rw [if_neg hflush] at hc
      exact hinv.1 c hc

/-! ## Subject resolver and classifier membership lemmas -/

theorem orElse_cases {α : Type} (o1 : Option α) (f : Unit → Option α) (x : α)
    (h : o1.orElse f = some x) : o1 = some x ∨ (o1 = none ∧ f () = some x) := by
  cases o1 with
  | none => right; exact ⟨rfl, h⟩
  | some a => left; exact h

theorem strat1_mem (pl : List Char) (subs : List (List Char)) (t : List Char)
    (h : strat1 pl subs = some t) : t ∈ subs :=
  List.mem_of_find?_eq_some h

theorem strat2_mem (pl : List Char) (subs : List (List Char)) (t : List Char)
    (h : strat2 pl subs = some t) : t ∈ subs :=
  List.mem_of_find?_eq_some h

theorem strat3_mem (pl : List Char) (subs : List (List Char)) (t : List Char)
    (h : strat3 pl subs = some t) : t ∈ subs :=
  List.mem_of_find?_eq_some h

theorem strat4Step_cases (pw : List (List Char))
    (b0 : Option (List Char × Nat × Nat)) (s : List Char)
    (trip : List Char × Nat × Nat) (h : strat4Step pw b0 s = some trip) :
    b0 = some trip ∨ trip.1 = s := by
  unfold strat4Step at h
  dsimp only at h
  split at h
  · left; exact h
  · split at h
    · right
      injection h with h'
      rw [← h']
    · left; exact h

theorem strat4_aux (pw : List (List Char)) :
    ∀ (subs : List (List Char)) (b0 : Option (List Char × Nat × Nat))
      (trip : List Char × Nat × Nat),
      subs.foldl (strat4Step pw) b0 = some trip → b0 = some trip ∨ trip.1 ∈ subs := by
  intro subs
  induction subs with
  | nil => intro b0 trip h; left; exact h
  | cons s ss ih =>
    intro b0 trip h
    rw [List.foldl_cons] at h
    rcases ih (strat4Step pw b0 s) trip h with h1 | h1
    · rcases strat4Step_cases pw b0 s trip h1 with h2 | h2
      · left; exact h2
      · right; rw [h2]; exact List.mem_cons_self _ _
    · right; exact List.mem_cons_of_mem _ h1

theorem strat4_mem (pl : List Char) (subs : List (List Char)) (t : List Char)
    (h : strat4 pl subs = some t) : t ∈ subs := by
  unfold strat4 at h
  obtain ⟨trip, htrip, ht⟩ := Option.map_eq_some'.mp h
  rcases strat4_aux _ subs none trip htrip with h1 | h1
  · exact absurd h1.symm (by simp)
  · rw [← ht]; exact h1

theorem strat5_mem (pl : List Char) (subs : List (List Char)) (t : List Char)
    (h : strat5 pl subs = some t) : t ∈ subs := by
  unfold strat5 at h
  cases hm : (subject_mappings.find? (fun p => p.1 == pl)).map (·.2) with
  | none => rw [hm] at h; exact absurd h (by simp)
  | some mapped =>
    rw [hm] at h
    exact List.mem_of_find?_eq_some h

theorem find_closest_mem (p : List Char) (subs : List (List Char)) (t : List Char)
    (h : _find_closest_subject_match p subs = some t) : t ∈ subs := by
  unfold _find_closest_subject_match at h
  by_cases hg : p.isEmpty ∨ subs.isEmpty
  · rw [if_pos hg] at h; exact absurd h (by simp)
  · rw [if_neg hg] at h
    rcases orElse_cases _ _ _ h with h1 | ⟨_, h1⟩
    · exact strat1_mem _ _ _ h1
    · rcases orElse_cases _ _ _ h1 with h2 | ⟨_, h2⟩
      · exact strat2_mem _ _ _ h2
      · rcases orElse_cases _ _ _ h2 with h3 | ⟨_, h3⟩
        · exact strat3_mem _ _ _ h3
        · rcases orElse_cases _ _ _ h3 with h4 | ⟨_, h4⟩
          · exact strat4_mem _ _ _ h4
          · exact strat5_mem _ _ _ h4

theorem firstKwMatch_mem (subs : List (List Char)) :
    ∀ (ks : List (List Char)) (t : List Char),
      firstKwMatch ks subs = some t → t ∈ subs := by
  intro ks
  induction ks with
  | nil => intro t h; exact absurd h (by simp [firstKwMatch])
  | cons k ks' ih =>
    intro t h
    unfold firstKwMatch at h
    cases hm : _find_closest_subject_match k subs with
    | none => rw [hm] at h; exact ih t h
    | some m =>
      rw [hm] at h
      have : m = t := by injection h
      rw [← this]
      exact find_closest_mem _ _ _ hm

theorem classify_subject_mem (enabled : Bool) (resp kwresp : Option (List Char))
    (text : List Char) (subs : List (List Char)) (m : List Char)
    (h : classify_subject enabled resp kwresp text subs = some m) : m ∈ subs := by
  unfold classify_subject at h
  by_cases hg : !enabled ∨ subs.isEmpty
  · rw [if_pos hg] at h; exact absurd h (by simp)
  · rw [if_neg hg] at h
    cases resp with
    | none => exact absurd h (by simp)
    | some r =>
      have h' : (if subs.contains (pyStrip r) = true then some (pyStrip r)
          else if (upperS (pyStrip r) == "NONE".toList) = true then none
          else match _find_closest_subject_match (pyStrip r) subs with
            | some m => some m
            | none => firstKwMatch (extract_keywords true kwresp text) subs)
          = some m := h
      by_cases hc : subs.contains (pyStrip r) = true
      · rw [if_pos hc] at h'
        have : pyStrip r = m := by injection h'
        rw [← this]
        simpa using hc
      · rw [if_neg hc] at h'
        by_cases hn : (upperS (pyStrip r) == "NONE".toList) = true
        · rw [if_pos hn] at h'; exact absurd h' (by simp)
        · rw [if_neg hn] at h'
          cases hm : _find_closest_subject_match (pyStrip r) subs with
          | none =>
            rw [hm] at h'
            exact firstKwMatch_mem subs _ m h'
          | some m' =>
            rw [hm] at h'
            have : m' = m := by injection h'
            rw [← this]
            exact find_closest_mem _ _ _ hm

theorem resolveSubject_mem (csResp kwResp : List Char → Option (List Char))
    (subs : List (List Char)) (s0 : List Char) (cv : Json) :
    resolveSubject csResp kwResp subs s0 cv ∈ subs ∨
      resolveSubject csResp kwResp subs s0 cv = "General".toList := by
  unfold resolveSubject
  by_cases hg : (subs.contains s0 || s0 == "General".toList) = true
  · rw [if_pos hg]
    rcases Bool.or_eq_true_iff.mp hg with h1 | h1
    · left; simpa using h1
    · right; simpa using h1
  · rw [if_neg hg]
    cases hm : _find_closest_subject_match s0 subs with
    | some m => left; exact find_closest_mem _ _ _ hm
    | none =>
      cases hcs : (match cv with
        | Json.str c => classify_subject true (csResp c) (kwResp c) c subs
        | _ => none) with
      | some m =>
        left
        cases cv with
        | str c => exact classify_subject_mem _ _ _ _ _ _ hcs
        | null => exact absurd hcs (by simp)
        | bool b => exact absurd hcs (by simp)
        | num q => exact absurd hcs (by simp)
        | arr l => exact absurd hcs (by simp)
        | obj kvs => exact absurd hcs (by simp)
      | none => right; rfl

theorem mkValidated_subject (subj : List Char) (kvs : List (List Char × Json))
    (cv : Json) (cd : List Char) (rec : CRecord)
    (h : mkValidated subj kvs cv cd = some (some rec)) : rec.subject = subj := by
  cases cv with
  | str c =>
    unfold mkValidated at h
    cases ht : (jget kvs "title".toList).getD (Json.str []) with
    | str t0raw =>
      rw [ht] at h
      have h' : some (some (⟨subj, resolveTitle subj (pyStrip t0raw) c cd, pyStrip c⟩ : CRecord))
          = some (some rec) := h
      have h2 : (⟨subj, resolveTitle subj (pyStrip t0raw) c cd, pyStrip c⟩ : CRecord) = rec := by
        simpa using h'
      rw [← h2]
    | null => rw [ht] at h; exact absurd h (by simp)
    | bool b => rw [ht] at h; exact absurd h (by simp)
    | num q => rw [ht] at h; exact absurd h (by simp)
    | arr l => rw [ht] at h; exact absurd h (by simp)
    | obj kvs' => rw [ht] at h; exact absurd h (by simp)
  | null => exact absurd h (by simp [mkValidated])
  | bool b => exact absurd h (by simp [mkValidated])
  | num q => exact absurd h (by simp [mkValidated])
  | arr l => exact absurd h (by simp [mkValidated])
  | obj kvs' => exact absurd h (by simp [mkValidated])

theorem processItem_subject (csResp kwResp : List Char → Option (List Char))
    (subs : List (List Char)) (cd : List Char) (item : Json) (rec : CRecord)
    (h : processItem csResp kwResp subs cd item = some (some rec)) :
    rec.subject ∈ subs ∨ rec.subject = "General".toList := by
  cases item with
  | obj kvs =>
    have h0 : (match jget kvs "subject".toList, jget kvs "content".toList with
      | some sv, some cv =>
        (match sv with
         | Json.str s0 => mkValidated (resolveSubject csResp kwResp subs s0 cv) kvs cv cd
         | _ => none)
      | _, _ => some none) = some (some rec) := h
    cases hs : jget kvs "subject".toList with
    | none =>
      rw [hs] at h0
      have h1 : (some none : Option (Option CRecord)) = some (some rec) := h0
      exact absurd h1 (by simp)
    | some sv =>
      cases hc : jget kvs "content".toList with
      | none =>
        rw [hs, hc] at h0
        have h1 : (some none : Option (Option CRecord)) = some (some rec) := h0
        exact absurd h1 (by simp)
      | some cv =>
        rw [hs, hc] at h0
        cases sv with
        | str s0 =>
          have h' : mkValidated (resolveSubject csResp kwResp subs s0 cv) kvs cv cd
              = some (some rec) := h0
          rw [mkValidated_subject _ _ _ _ _ h']
          exact resolveSubject_mem csResp kwResp subs s0 cv
        | null => exact absurd (show (none : Option (Option CRecord)) = some (some rec) from h0) (by simp)
        | bool b => exact absurd (show (none : Option (Option CRecord)) = some (some rec) from h0) (by simp)
        | num q => exact absurd (show (none : Option (Option CRecord)) = some (some rec) from h0) (by simp)
        | arr l => exact absurd (show (none : Option (Option CRecord)) = some (some rec) from h0) (by simp)
        | obj kvs2 => exact absurd (show (none : Option (Option CRecord)) = some (some rec) from h0) (by simp)
  | null => exact absurd h (by simp [processItem])
  | bool b => exact absurd h (by simp [processItem])
  | num q => exact absurd h (by simp [processItem])
  | str s => exact absurd h (by simp [processItem])
  | arr l => exact absurd h (by simp [processItem])

theorem processItems_cons (csResp kwResp : List Char → Option (List Char))
    (subs : List (List Char)) (cd : List Char) (it : Json) (its : List Json) :
    processItems csResp kwResp subs cd (it :: its) =
      match processItem csResp kwResp subs cd it with
      | none => none
      | some none => processItems csResp kwResp subs cd its
      | some (some rec) =>
        (processItems csResp kwResp subs cd its).map (rec :: ·) := rfl

theorem processItems_subject (csResp kwResp : List Char → Option (List Char))
    (subs : List (List Char)) (cd : List Char) :
    ∀ (items : List Json) (recs : List CRecord),
      processItems csResp kwResp subs cd items = some recs →
      ∀ rec ∈ recs, rec.subject ∈ subs ∨ rec.subject = "General".toList := by
  intro items
  induction items with
  | nil =>
    intro recs h rec hrec
    have : ([] : List CRecord) = recs := by injection h
    rw [← this] at hrec
    simp at hrec
  | cons it its ih =>
    intro recs h rec hrec
    rw [processItems_cons] at h
    cases hpi : processItem csResp kwResp subs cd it with
    | none => rw [hpi] at h; exact absurd h (by simp)
    | some o =>
      cases o with
      | none =>
        rw [hpi] at h
        exact ih recs h rec hrec
      | some rec0 =>
        rw [hpi] at h
        have h' : (processItems csResp kwResp subs cd its).map (rec0 :: ·) = some recs := h
        obtain ⟨recs', hrecs', hmap⟩ := Option.map_eq_some'.mp h'
        rw [← hmap] at hrec
        rcases List.mem_cons.mp hrec with h1 | h1
        · rw [h1]
          exact processItem_subject csResp kwResp subs cd it rec0 hpi
        · exact ih recs' hrecs' rec h1

theorem fallbackRecord_subject (csResp kwResp : List Char → Option (List Char))
    (text : List Char) (subs : List (List Char)) (cd : List Char) :
    ∀ rec ∈ fallbackRecord csResp kwResp text subs cd,
      rec.subject ∈ subs ∨ rec.subject = "General".toList := by
  intro rec hrec
  unfold fallbackRecord at hrec
  rw [List.mem_singleton] at hrec
  rw [hrec]
  show (classify_subject true (csResp text) (kwResp text) text subs).getD "General".toList ∈ subs ∨ _
  cases hcs : classify_subject true (csResp text) (kwResp text) text subs with
  | none => right; rfl
  | some m =>
    left
    show m ∈ subs
    exact classify_subject_mem _ _ _ _ _ _ hcs

/-! ## Skipping invalid items (for the JSON-list-without-records behaviour) -/

theorem processItem_skip (csResp kwResp : List Char → Option (List Char))
    (subs : List (List Char)) (cd : List Char) (item : Json)
    (h : hasSubjectContent item = false) :
    processItem csResp kwResp subs cd item = some none := by
  cases item with
  | obj kvs =>
    have heq : processItem csResp kwResp subs cd (Json.obj kvs) =
        (match jget kvs "subject".toList, jget kvs "content".toList with
         | some sv, some cv =>
           (match sv with
            | Json.str s0 => mkValidated (resolveSubject csResp kwResp subs s0 cv) kvs cv cd
            | _ => none)
         | _, _ => some none) := rfl
    cases hs : jget kvs "subject".toList with
    | none =>
      rw [heq, hs]
    | some sv =>
      cases hcx : jget kvs "content".toList with
      | none => rw [heq, hs, hcx]
      | some cv =>
        have h0 : ((jget kvs "subject".toList).isSome
            && (jget kvs "content".toList).isSome) = false := h
        rw [hs, hcx] at h0
        simp at h0
  | null => rfl
  | bool b => rfl
  | num q => rfl
  | str s => rfl
  | arr l => rfl

theorem processItems_all_skip (csResp kwResp : List Char → Option (List Char))
    (subs : List (List Char)) (cd : List Char) :
    ∀ items : List Json, (∀ it ∈ items, hasSubjectContent it = false) →
      processItems csResp kwResp subs cd items = some [] := by
  intro items
  induction items with
  | nil => intro _; rfl
  | cons it its ih =>
    intro hall
    rw [processItems_cons,
      processItem_skip csResp kwResp subs cd it (hall it (List.mem_cons_self _ _))]
    exact ih (fun x hx => hall x (List.mem_cons_of_mem _ hx))

/-! ## Embedding store lemmas -/

/-- A successful removal leaves no chunks of the removed note. -/
theorem remove_ok_no_nid (nid : Nat) (s : Store) :
    ∀ e ∈ (remove_note_embeddings true false false nid s).2, e.note_id ≠ nid := by
  intro e he hid
  have he' : e ∈ (if (!(((s.filter (fun x => x.note_id == nid)).map (fun x => x.cid)).isEmpty)) = true
      then (true, s.filter (fun x => !((s.filter (fun y => y.note_id == nid)).map (fun x => x.cid)).contains x.cid))
      else (true, s)).2 := he
  by_cases hids : (((s.filter (fun x => x.note_id == nid)).map (fun x => x.cid)).isEmpty) = true
  · rw [if_neg (by simp [hids])] at he'
    have hfil : (s.filter (fun x => x.note_id == nid)) = [] := by
      have := List.isEmpty_iff.mp hids
      exact List.map_eq_nil_iff.mp this
    have : e ∈ s.filter (fun x => x.note_id == nid) :=
      List.mem_filter.mpr ⟨he', by simp [hid]⟩
    rw [hfil] at this
    simp at this
  · rw [if_pos (by simp [Bool.not_eq_true] at hids ⊢; exact hids)] at he'
    obtain ⟨hes, hpred⟩ := List.mem_filter.mp he'
    have hcid : e.cid ∈ (s.filter (fun y => y.note_id == nid)).map (fun x => x.cid) :=
      List.mem_map.mpr ⟨e, List.mem_filter.mpr ⟨hes, by simp [hid]⟩, rfl⟩
    rw [Bool.not_eq_true'] at hpred
    have : ((s.filter (fun y => y.note_id == nid)).map (fun x => x.cid)).contains e.cid = true := by
      simpa using hcid
    rw [this] at hpred
    exact absurd hpred (by simp)

/-- Unfolding `add_note_embeddings` when the service is enabled and the
internal removal succeeds. -/
theorem add_note_embeddings_eq (encFails : Nat → Bool) (enc : List Char → List ℚ)
    (addFails : Bool) (nid : Nat) (title content subject_name : List Char)
    (user_id : Nat) (created_at : List Char) (s : Store) :
    add_note_embeddings true false false encFails enc addFails nid title content
        subject_name user_id created_at s =
      (match buildEntries encFails
          (mkChunkEntry enc nid subject_name user_id title created_at)
          (_chunk_text (title ++ '\n' :: '\n' :: content) 500 50) 0 with
       | none => (false, (remove_note_embeddings true false false nid s).2)
       | some es =>
         if !es.isEmpty then
           if addFails then (false, (remove_note_embeddings true false false nid s).2)
           else (true, (remove_note_embeddings true false false nid s).2 ++ es)
         else (true, (remove_note_embeddings true false false nid s).2)) := rfl

theorem buildEntries_mem (encFails : Nat → Bool) (mk : Nat → List Char → NoteChunk) :
    ∀ (chunks : List (List Char)) (i : Nat) (es : List NoteChunk),
      buildEntries encFails mk chunks i = some es →
      ∀ e ∈ es, ∃ j c, e = mk j c := by
  intro chunks
  induction chunks with
  | nil =>
    intro i es h e he
    have : ([] : List NoteChunk) = es := by injection h
    rw [← this] at he
    simp at he
  | cons c cs ih =>
    intro i es h e he
    unfold buildEntries at h
    by_cases hstrip : ((pyStrip c).isEmpty) = true
    · rw [if_pos hstrip] at h
      exact ih (i + 1) es h e he
    · rw [if_neg hstrip] at h
      by_cases henc : encFails i = true
      · rw [if_pos henc] at h
        exact absurd h (by simp)
      · rw [if_neg henc] at h
        cases hrec : buildEntries encFails mk cs (i + 1) with
        | none => rw [hrec] at h; exact absurd h (by simp)
        | some es' =>
          rw [hrec] at h
          have : mk i c :: es' = es := by injection h
          rw [← this] at he
          rcases List.mem_cons.mp he with h1 | h1
          · exact ⟨i, c, h1⟩
          · exact ih (i + 1) es' hrec e h1

theorem buildEntries_success (encFails : Nat → Bool)
    (henc : ∀ j, encFails j = false) (enc : List Char → List ℚ) (nid : Nat)
    (sn : List Char) (uid : Nat) (t ca : List Char) :
    ∀ (chunks : List (List Char)) (i : Nat),
      ∃ es, buildEntries encFails (mkChunkEntry enc nid sn uid t ca) chunks i = some es ∧
        es.map (·.document) = chunks.filter (fun c => !(pyStrip c).isEmpty) ∧
        ∀ e ∈ es, e.note_id = nid := by
  intro chunks
  induction chunks with
  | nil =>
    intro i
    exact ⟨[], rfl, rfl, by intro e he; simp at he⟩
  | cons c cs ih =>
    intro i
    obtain ⟨es, heq, hmap, hnid⟩ := ih (i + 1)
    by_cases hstrip : ((pyStrip c).isEmpty) = true
    · refine ⟨es, ?_, ?_, hnid⟩
      · unfold buildEntries
        rw [if_pos hstrip]
        exact heq
      · rw [List.filter_cons_of_neg (by simp [hstrip]), hmap]
    · refine ⟨mkChunkEntry enc nid sn uid t ca i c :: es, ?_, ?_, ?_⟩
      · unfold buildEntries
        rw [if_neg hstrip, if_neg (by simp [henc i]), heq]
      · rw [List.filter_cons_of_pos (by simp [hstrip]), List.map_cons, hmap]
        rfl
      · intro e he
        rcases List.mem_cons.mp he with h1 | h1
        · rw [h1]; rfl
        · exact hnid e h1

/-! ## Claim theorems -/

/-- C5 (counterexample): with `max_chars = 10` and `overlap_chars = 0`, the
text `"aaaaa.bbbbb.cccccccccc"` yields the chunk `"aaaaa bbbbb"` of length 11
(> max_chars) even though every stripped sentence of the text has length at
most 10 — so the oversized chunk is not a single oversized sentence, refuting
`len(chunk) <= max_chars` as stated. -/
theorem C5_counterexample_joined_chunk_exceeds_max :
    _chunk_text "aaaaa.bbbbb.cccccccccc".toList 10 0
      = ["aaaaa bbbbb".toList, "cccccccccc".toList]
    ∧ ("aaaaa bbbbb".toList).length = 11
    ∧ (∀ raw ∈ splitRuns sentenceSep "aaaaa.bbbbb.cccccccccc".toList,
        (pyStrip raw).length ≤ 10) := by
  refine ⟨by decide, by decide, by decide⟩

/-- C5 (witness): the amended bound evaluated at the counterexample input and
its oversized chunk. -/
theorem C5_witness :
    ("aaaaa bbbbb".toList).length ≤ 10 + 0 + 1 ∨
    ∃ raw ∈ splitRuns sentenceSep "aaaaa.bbbbb.cccccccccc".toList,
      10 < (pyStrip raw).length ∧ pyStrip raw <:+: "aaaaa bbbbb".toList :=
  C5_amended_chunk_length_bound "aaaaa.bbbbb.cccccccccc".toList 10 0
    "aaaaa bbbbb".toList (by decide)

/-- C7: the subject resolver applies its five strategies in strict priority
order with the first hit winning (the resolver is exactly the ordered
`orElse` chain of the strategies, and a strategy-1 hit is returned as is), and
on the three specification examples it resolves `"Machine Learning"` exactly,
resolves `"ml"` through the synonym table (strategies 1–4 all miss), and
rejects `"quantum foo"`. -/
theorem C7_resolver_priority_examples :
    (_find_closest_subject_match "Machine Learning".toList
        ["Machine Learning".toList, "History".toList] = some "Machine Learning".toList)
    ∧ (_find_closest_subject_match "ml".toList ["Machine Learning".toList]
        = some "Machine Learning".toList)
    ∧ (strat1 "ml".toList ["Machine Learning".toList] = none
       ∧ strat2 "ml".toList ["Machine Learning".toList] = none
       ∧ strat3 "ml".toList ["Machine Learning".toList] = none
       ∧ strat4 "ml".toList ["Machine Learning".toList] = none
       ∧ strat5 "ml".toList ["Machine Learning".toList] = some "Machine Learning".toList)
    ∧ (_find_closest_subject_match "quantum foo".toList
        ["History".toList, "Art".toList] = none)
    ∧ (∀ label vocab, label.isEmpty = false → vocab.isEmpty = false →
        _find_closest_subject_match label vocab =
          ((strat1 (pyStrip (lowerS label)) vocab).orElse fun _ =>
           (strat2 (pyStrip (lowerS label)) vocab).orElse fun _ =>
           (strat3 (pyStrip (lowerS label)) vocab).orElse fun _ =>
           (strat4 (pyStrip (lowerS label)) vocab).orElse fun _ =>
           strat5 (pyStrip (lowerS label)) vocab))
    ∧ (∀ label vocab r, label.isEmpty = false → vocab.isEmpty = false →
        strat1 (pyStrip (lowerS label)) vocab = some r →
        _find_closest_subject_match label vocab = some r) := by
  refine ⟨by decide, by decide, ⟨by decide, by decide, by decide, by decide, by decide⟩,
    by decide, ?_, ?_⟩
  · intro label vocab hl hv
    unfold _find_closest_subject_match
    rw [if_neg (by simp [hl, hv])]
  · intro label vocab r hl hv h1
    unfold _find_closest_subject_match
    rw [if_neg (by simp [hl, hv])]
    dsimp only
    rw [h1]
    rfl

/-- C7 (witness): the priority conjunct applied at the first example. -/
theorem C7_witness :
    _find_closest_subject_match "Machine Learning".toList
      ["Machine Learning".toList, "History".toList] = some "Machine Learning".toList :=
  (C7_resolver_priority_examples).2.2.2.2.2 "Machine Learning".toList
    ["Machine Learning".toList, "History".toList] "Machine Learning".toList
    (by decide) (by decide) (by decide)

/-- C1 (code_bug): `get_similar_notes` never runs the similarity pipeline: it
returns `[]` unconditionally (the body starts with a stub `return []` under a
"temporarily disable" TODO).  On a store where note 1 (the reference, with an
indexed chunk) and note 2 are both indexed for user 1 and the neighbour query
would return note 2, the shipped function still returns `[]` while the
disabled pipeline code below the stub would return the note-2 hit with the
reference note excluded. -/
theorem C1_get_similar_notes_stub_divergence :
    get_similar_notes true
      [⟨"note_1_chunk_0".toList, 1, 0, "doc one".toList, [], "S".toList, 1, "T1".toList, "".toList⟩,
       ⟨"note_2_chunk_0".toList, 2, 0, "doc two".toList, [], "S".toList, 1, "T2".toList, "".toList⟩]
      1 1 5 = []
    ∧ (List.filter (fun e => e.note_id == 1 && e.user_id == 1)
        ([⟨"note_1_chunk_0".toList, 1, 0, "doc one".toList, [], "S".toList, 1, "T1".toList, "".toList⟩,
          ⟨"note_2_chunk_0".toList, 2, 0, "doc two".toList, [], "S".toList, 1, "T2".toList, "".toList⟩] : Store)) ≠ []
    ∧ get_similar_notes_pipeline
        [⟨"note_1_chunk_0".toList, 1, 0, "doc one".toList, [], "S".toList, 1, "T1".toList, "".toList⟩,
         ⟨"note_2_chunk_0".toList, 2, 0, "doc two".toList, [], "S".toList, 1, "T2".toList, "".toList⟩]
        (fun _ _ => [⟨2, "T2".toList, "S".toList, 0⟩, ⟨1, "T1".toList, "S".toList, 0⟩])
        1 1 5
      = [⟨2, "T2".toList, "S".toList, 1⟩]
    ∧ (∀ (s : Store) (note_id user_id n_results : Nat),
        get_similar_notes true s note_id user_id n_results = []) := by
  refine ⟨by decide, by decide, by decide, ?_⟩
  intro s note_id user_id n_results
  rfl

/-- C3: for every input text, vocabulary, and arbitrary generation / parse /
nested-classification oracle behaviour, every record returned by
`classify_multi_subject_text` has a subject that is a member of the supplied
vocabulary or the literal `"General"`. -/
theorem C3_subject_in_vocabulary_or_general
    (enabled : Bool) (resp : Option (List Char)) (jparse : List Char → Option Json)
    (csResp kwResp : List Char → Option (List Char)) (text : List Char)
    (subs : List (List Char)) (cd : List Char) :
    ∀ rec ∈ classify_multi_subject_text enabled resp jparse csResp kwResp text subs cd,
      rec.subject ∈ subs ∨ rec.subject = "General".toList := by
  intro rec hrec
  unfold classify_multi_subject_text at hrec
  by_cases hg : ((!enabled) = true ∨ subs.isEmpty = true ∨ (pyStrip text).isEmpty = true)
  · rw [if_pos hg] at hrec
    simp at hrec
  · rw [if_neg hg] at hrec
    cases resp with
    | none => exact fallbackRecord_subject csResp kwResp text subs cd rec hrec
    | some rtext =>
      have hrec1 : rec ∈ (match jparse (sliceBrackets (pyStrip rtext)) with
        | none => fallbackRecord csResp kwResp text subs cd
        | some j =>
          match j with
          | Json.arr items =>
            (match processItems csResp kwResp subs cd items with
             | none => fallbackRecord csResp kwResp text subs cd
             | some recs => recs)
          | Json.str _ => []
          | Json.obj _ => []
          | _ => fallbackRecord csResp kwResp text subs cd) := hrec
      cases hj : jparse (sliceBrackets (pyStrip rtext)) with
      | none =>
        rw [hj] at hrec1
        exact fallbackRecord_subject csResp kwResp text subs cd rec hrec1
      | some j =>
        rw [hj] at hrec1
        cases j with
        | arr items =>
          have hrec2 : rec ∈ (match processItems csResp kwResp subs cd items with
            | none => fallbackRecord csResp kwResp text subs cd
            | some recs => recs) := hrec1
          cases hpi : processItems csResp kwResp subs cd items with
          | none =>
            rw [hpi] at hrec2
            exact fallbackRecord_subject csResp kwResp text subs cd rec hrec2
          | some recs =>
            rw [hpi] at hrec2
            exact processItems_subject csResp kwResp subs cd items recs hpi rec hrec2
        | str sx => exact absurd (show rec ∈ ([] : List CRecord) from hrec1) (by simp)
        | obj kvs => exact absurd (show rec ∈ ([] : List CRecord) from hrec1) (by simp)
        | null => exact fallbackRecord_subject csResp kwResp text subs cd rec hrec1
        | bool b => exact fallbackRecord_subject csResp kwResp text subs cd rec hrec1
        | num q => exact fallbackRecord_subject csResp kwResp text subs cd rec hrec1

/-- C3 (witness): the guarantee evaluated on a concrete run whose model output
is unparseable, so the fallback record is produced. -/
theorem C3_witness :
    (⟨"General".toList, "Monday, January 05, 2026 Notes".toList,
        "hi there everyone now".toList⟩ : CRecord).subject ∈ ["History".toList]
      ∨ (⟨"General".toList, "Monday, January 05, 2026 Notes".toList,
        "hi there everyone now".toList⟩ : CRecord).subject = "General".toList :=
  C3_subject_in_vocabulary_or_general true (some "oops".toList) (fun _ => none)
    (fun _ => none) (fun _ => none) " hi there everyone now".toList
    ["History".toList] "Monday, January 05, 2026".toList
    ⟨"General".toList, "Monday, January 05, 2026 Notes".toList,
      "hi there everyone now".toList⟩ (by decide)

/-- C10: when the parsed model output is a JSON list none of whose elements is
an object with both a `subject` and a `content` key, every element is skipped
and the empty sequence is returned: the single-subject fallback is not taken. -/
theorem C10_json_list_without_records_empty
    (jparse : List Char → Option Json)
    (csResp kwResp : List Char → Option (List Char)) (text : List Char)
    (subs : List (List Char)) (cd : List Char) (rtext : List Char)
    (items : List Json)
    (hsubs : subs.isEmpty = false) (htext : (pyStrip text).isEmpty = false)
    (hj : jparse (sliceBrackets (pyStrip rtext)) = some (Json.arr items))
    (hall : ∀ it ∈ items, hasSubjectContent it = false) :
    classify_multi_subject_text true (some rtext) jparse csResp kwResp text subs cd
      = [] := by
  unfold classify_multi_subject_text
  rw [if_neg (by simp [hsubs, htext])]
  show (match jparse (sliceBrackets (pyStrip rtext)) with
    | none => fallbackRecord csResp kwResp text subs cd
    | some j =>
      match j with
      | Json.arr items =>
        (match processItems csResp kwResp subs cd items with
         | none => fallbackRecord csResp kwResp text subs cd
         | some recs => recs)
      | Json.str _ => []
      | Json.obj _ => []
      | _ => fallbackRecord csResp kwResp text subs cd) = []
  rw [hj]
  show (match processItems csResp kwResp subs cd items with
    | none => fallbackRecord csResp kwResp text subs cd
    | some recs => recs) = []
  rw [processItems_all_skip csResp kwResp subs cd items hall]

/-- C10 (witness): the theorem evaluated with a parsed list `[1, 2]` of
non-record elements. -/
theorem C10_witness :
    classify_multi_subject_text true (some "[1, 2]".toList)
      (fun _ => some (Json.arr [Json.num 1, Json.num 2]))
      (fun _ => none) (fun _ => none)
      "hello world".toList ["History".toList] "D".toList = [] :=
  C10_json_list_without_records_empty
    (fun _ => some (Json.arr [Json.num 1, Json.num 2]))
    (fun _ => none) (fun _ => none) "hello world".toList ["History".toList]
    "D".toList "[1, 2]".toList [Json.num 1, Json.num 2]
    (by decide) (by decide) rfl (by decide)

/-- C6 (counterexample): for the input text `" hi there everyone now"` (note
the leading space) and unparseable model output, the single returned record's
`content` is the stripped text `"hi there everyone now"`, which is not the
original input verbatim. -/
theorem C6_counterexample_content_stripped_not_verbatim :
    (classify_multi_subject_text true (some "oops".toList) (fun _ => none)
        (fun _ => none) (fun _ => none) " hi there everyone now".toList
        ["History".toList] "Monday, January 05, 2026".toList).map
      (fun r => r.content) = ["hi there everyone now".toList]
    ∧ (classify_multi_subject_text true (some "oops".toList) (fun _ => none)
        (fun _ => none) (fun _ => none) " hi there everyone now".toList
        ["History".toList] "Monday, January 05, 2026".toList).length = 1
    ∧ "hi there everyone now".toList ≠ " hi there everyone now".toList := by
  refine ⟨by decide, by decide, by decide⟩

/-- C6 (amended): given unparseable model output (and the guards passed), the
classifier returns exactly one record whose `content` is the original input
text stripped of leading and trailing whitespace — verbatim exactly when the
input has no surrounding whitespace. -/
theorem C6_amended_fallback_single_record_stripped
    (jparse : List Char → Option Json)
    (csResp kwResp : List Char → Option (List Char)) (text : List Char)
    (subs : List (List Char)) (cd : List Char) (rtext : List Char)
    (hsubs : subs.isEmpty = false) (htext : (pyStrip text).isEmpty = false)
    (hj : jparse (sliceBrackets (pyStrip rtext)) = none) :
    ∃ subj ttl,
      classify_multi_subject_text true (some rtext) jparse csResp kwResp text subs cd
        = [⟨subj, ttl, pyStrip text⟩] := by
  refine ⟨(classify_subject true (csResp text) (kwResp text) text subs).getD "General".toList,
    fbTitle text cd, ?_⟩
  unfold classify_multi_subject_text
  rw [if_neg (by simp [hsubs, htext])]
  show (match jparse (sliceBrackets (pyStrip rtext)) with
    | none => fallbackRecord csResp kwResp text subs cd
    | some j =>
      match j with
      | Json.arr items =>
        (match processItems csResp kwResp subs cd items with
         | none => fallbackRecord csResp kwResp text subs cd
         | some recs => recs)
      | Json.str _ => []
      | Json.obj _ => []
      | _ => fallbackRecord csResp kwResp text subs cd) = _
  rw [hj]
  rfl

/-- C6 (witness): the amended statement evaluated at the counterexample
input. -/
theorem C6_witness :
    ∃ subj ttl,
      classify_multi_subject_text true (some "oops".toList) (fun _ => none)
        (fun _ => none) (fun _ => none) " hi there everyone now".toList
        ["History".toList] "Monday, January 05, 2026".toList
      = [⟨subj, ttl, pyStrip " hi there everyone now".toList⟩] :=
  C6_amended_fallback_single_record_stripped (fun _ => none) (fun _ => none)
    (fun _ => none) " hi there everyone now".toList ["History".toList]
    "Monday, January 05, 2026".toList "oops".toList (by decide) (by decide) rfl

/-- C2 (counterexample): when the internal removal fails (its `collection.get`
raises — the method swallows this and returns `False`, which
`add_note_embeddings` ignores) and embedding then fails too, the upsert
returns `false` but the store still contains the chunk of the previous
version of note 1: stale chunks survive, refuting the claim as stated. -/
theorem C2_counterexample_swallowed_removal_failure :
    add_note_embeddings true true false (fun _ => true) (fun _ => []) false 1
      "T".toList "hello".toList "S".toList 7 "d".toList
      [⟨"note_1_chunk_0".toList, 1, 0, "old".toList, [], "S".toList, 7, "Old".toList, "d".toList⟩]
    = (false,
       [⟨"note_1_chunk_0".toList, 1, 0, "old".toList, [], "S".toList, 7, "Old".toList, "d".toList⟩])
    ∧ (⟨"note_1_chunk_0".toList, 1, 0, "old".toList, [], "S".toList, 7, "Old".toList,
        "d".toList⟩ : NoteChunk).note_id = 1 := by
  refine ⟨by decide, by decide⟩

/-- C2 (amended): the removal step is invoked unconditionally before any
re-insertion, and provided the removal's own store operations succeed, a
failed upsert (embedding or storage error, reported as `false`, never raised)
leaves no chunks of that note in the store — in particular none from the
previous version; any chunk of the note present after the call comes from the
freshly built batch.  (If removal itself fails, its error is swallowed and
stale chunks may remain — the counterexample.) -/
theorem C2_amended_upsert_no_stale_chunks
    (encFails : Nat → Bool) (enc : List Char → List ℚ) (addFails : Bool)
    (nid : Nat) (title content subject_name : List Char) (user_id : Nat)
    (created_at : List Char) (s : Store) :
    ((add_note_embeddings true false false encFails enc addFails nid title
        content subject_name user_id created_at s).1 = false →
      ∀ e ∈ (add_note_embeddings true false false encFails enc addFails nid
        title content subject_name user_id created_at s).2, e.note_id ≠ nid)
    ∧ (∀ e ∈ (add_note_embeddings true false false encFails enc addFails nid
        title content subject_name user_id created_at s).2, e.note_id = nid →
        ∃ es, buildEntries encFails
            (mkChunkEntry enc nid subject_name user_id title created_at)
            (_chunk_text (title ++ '\n' :: '\n' :: content) 500 50) 0 = some es
          ∧ e ∈ es) := by
  cases hbuild : buildEntries encFails
      (mkChunkEntry enc nid subject_name user_id title created_at)
      (_chunk_text (title ++ '\n' :: '\n' :: content) 500 50) 0 with
  | none =>
    have hadd : add_note_embeddings true false false encFails enc addFails nid
        title content subject_name user_id created_at s
        = (false, (remove_note_embeddings true false false nid s).2) := by
      rw [add_note_embeddings_eq, hbuild]
    rw [hadd]
    constructor
    · intro _ e he
      exact remove_ok_no_nid nid s e he
    · intro e he hid
      exact absurd hid (remove_ok_no_nid nid s e he)
  | some es =>
    have hadd : add_note_embeddings true false false encFails enc addFails nid
        title content subject_name user_id created_at s
        = (if (!es.isEmpty) = true then
             if addFails = true then (false, (remove_note_embeddings true false false nid s).2)
             else (true, (remove_note_embeddings true false false nid s).2 ++ es)
           else (true, (remove_note_embeddings true false false nid s).2)) := by
      rw [add_note_embeddings_eq, hbuild]
    rw [hadd]
    by_cases hes : es.isEmpty = true
    · rw [if_neg (by simp [hes])]
      constructor
      · intro hf
        exact absurd hf (by simp)
      · intro e he hid
        exact absurd hid (remove_ok_no_nid nid s e he)
    · rw [if_pos (by simp [Bool.not_eq_true'] at hes ⊢; simp [hes])]
      by_cases haf : addFails = true
      · rw [if_pos haf]
        constructor
        · intro _ e he
          exact remove_ok_no_nid nid s e he
        · intro e he hid
          exact absurd hid (remove_ok_no_nid nid s e he)
      · rw [if_neg haf]
        constructor
        · intro hf
          exact absurd hf (by simp)
        · intro e he hid
          rcases List.mem_append.mp he with h1 | h1
          · exact absurd hid (remove_ok_no_nid nid s e h1)
          · exact ⟨es, rfl, h1⟩

/-- C2 (witness): the amended guarantee applied to a concrete failing upsert
over a store holding one chunk of note 1, with the removal succeeding and the
embedding call failing. -/
theorem C2_witness :
    ∀ e ∈ (add_note_embeddings true false false (fun _ => true) (fun _ => [])
      false 1 "T".toList "hello".toList "S".toList 7 "d".toList
      [⟨"note_1_chunk_0".toList, 1, 0, "old".toList, [], "S".toList, 7, "Old".toList,
        "d".toList⟩]).2, e.note_id ≠ 1 :=
  (C2_amended_upsert_no_stale_chunks (fun _ => true) (fun _ => []) false 1
    "T".toList "hello".toList "S".toList 7 "d".toList
    [⟨"note_1_chunk_0".toList, 1, 0, "old".toList, [], "S".toList, 7, "Old".toList,
      "d".toList⟩]).1 (by decide)

/-- C9: the text handed to the chunker by `add_note_embeddings` is exactly
`title ++ "\n\n" ++ content` (title, blank line, content), so on a successful
upsert the documents stored for the note are exactly the non-blank chunks of
that combined text — the title text itself gets embedded and is matchable. -/
theorem C9_title_blankline_content_chunked
    (encFails : Nat → Bool) (enc : List Char → List ℚ) (nid : Nat)
    (title content subject_name : List Char) (user_id : Nat)
    (created_at : List Char) (s : Store)
    (henc : ∀ j, encFails j = false) :
    (((add_note_embeddings true false false encFails enc false nid title
        content subject_name user_id created_at s).2.filter
        (fun e => e.note_id == nid)).map (fun e => e.document))
      = (_chunk_text (title ++ '\n' :: '\n' :: content) 500 50).filter
          (fun c => !(pyStrip c).isEmpty) := by
  obtain ⟨es, heq, hmap, hnid⟩ := buildEntries_success encFails henc enc nid
    subject_name user_id title created_at
    (_chunk_text (title ++ '\n' :: '\n' :: content) 500 50) 0
  have hs1 : ((remove_note_embeddings true false false nid s).2.filter
      (fun e => e.note_id == nid)) = [] := by
    rw [List.filter_eq_nil_iff]
    intro e he
    simp [remove_ok_no_nid nid s e he]
  have hadd : add_note_embeddings true false false encFails enc false nid
      title content subject_name user_id created_at s
      = (if (!es.isEmpty) = true then
           (true, (remove_note_embeddings true false false nid s).2 ++ es)
         else (true, (remove_note_embeddings true false false nid s).2)) := by
    rw [add_note_embeddings_eq, heq]
    show (if (!es.isEmpty) = true then
            if false = true then (false, (remove_note_embeddings true false false nid s).2)
            else (true, (remove_note_embeddings true false false nid s).2 ++ es)
          else (true, (remove_note_embeddings true false false nid s).2)) = _
    by_cases hes : es.isEmpty = true
    · rw [if_neg (by simp [hes]), if_neg (by simp [hes])]
    · have h0 : es.isEmpty = false := by simpa using hes
      have hcond : (!es.isEmpty) = true := by rw [h0]; rfl
      rw [if_pos hcond, if_pos hcond, if_neg (show ¬(false = true) by simp)]
  rw [hadd]
  by_cases hes : es.isEmpty = true
  · rw [if_neg (by simp [hes])]
    have hes' : es = [] := List.isEmpty_iff.mp hes
    rw [hs1, ← hmap, hes']
  · rw [if_pos (by simp [Bool.not_eq_true'] at hes ⊢; simp [hes])]
    rw [List.filter_append, hs1,
      List.filter_eq_self.mpr (fun e he => by simp [hnid e he])]
    simpa using hmap

/-- C9 (witness): the stored-documents equation evaluated at a concrete
successful upsert. -/
theorem C9_witness :
    (((add_note_embeddings true false false (fun _ => false) (fun _ => [])
        false 1 "T".toList "hello".toList "S".toList 7 "d".toList []).2.filter
        (fun e => e.note_id == 1)).map (fun e => e.document))
      = (_chunk_text ("T".toList ++ '\n' :: '\n' :: "hello".toList) 500 50).filter
          (fun c => !(pyStrip c).isEmpty) :=
  C9_title_blankline_content_chunked (fun _ => false) (fun _ => []) 1
    "T".toList "hello".toList "S".toList 7 "d".toList [] (fun _ => rfl)

/-- C8: on a non-empty retrieval result, the sources returned by
`search_and_answer` all come from hits with relevance strictly above `0.3`,
are capped at `max_context_notes`, and the reported confidence is the minimum
relevance over all retrieved hits before the filter. -/
theorem C8_sources_threshold_cap_min_confidence
    (answer : List Char) (results : List Hit) (maxn : Nat)
    (hres : results ≠ []) :
    (∀ src ∈ (search_and_answer true answer results maxn).sources,
        ∃ h ∈ results, ragThreshold < h.relevance_score ∧ src = mkSrc h)
    ∧ (search_and_answer true answer results maxn).sources.length ≤ maxn
    ∧ (∀ h ∈ results,
        (search_and_answer true answer results maxn).confidence ≤ h.relevance_score)
    ∧ (∃ h ∈ results,
        (search_and_answer true answer results maxn).confidence = h.relevance_score) := by
  have heq : search_and_answer true answer results maxn =
      ⟨answer,
        ((results.filter (fun r => ragThreshold < r.relevance_score)).map mkSrc).take maxn,
        ((results.filter (fun r => ragThreshold < r.relevance_score)).map mkSrcDetail).take maxn,
        pyMin (results.map (fun r => r.relevance_score))⟩ := by
    unfold search_and_answer
    rw [if_neg (by simp), if_neg (by simp [hres])]
  rw [heq]
  refine ⟨?_, ?_, ?_, ?_⟩
  · intro src hsrc
    have hsrc1 : src ∈ (results.filter (fun r => ragThreshold < r.relevance_score)).map mkSrc :=
      List.Sublist.mem hsrc (List.take_sublist _ _)
    obtain ⟨h, hh, hmk⟩ := List.exists_of_mem_map hsrc1
    obtain ⟨hhres, hthr⟩ := List.mem_filter.mp hh
    exact ⟨h, hhres, by simpa using hthr, hmk.symm⟩
  · exact List.length_take_le _ _
  · intro h hh
    exact pyMin_le _ _ (List.mem_map.mpr ⟨h, hh, rfl⟩)
  · have hne : results.map (fun r => r.relevance_score) ≠ [] := by
      cases results with
      | nil => exact absurd rfl hres
      | cons x xs => simp
    obtain ⟨h, hh, hx⟩ := List.mem_map.mp (pyMin_mem _ hne)
    exact ⟨h, hh, hx.symm⟩

/-- C8 (witness): the guarantee applied to a concrete one-hit retrieval
result. -/
theorem C8_witness :
    (∀ src ∈ (search_and_answer true "a".toList
        [⟨1, "T".toList, "S".toList, "S".toList, "".toList, 1, "doc".toList⟩] 1).sources,
        ∃ h ∈ [(⟨1, "T".toList, "S".toList, "S".toList, "".toList, 1, "doc".toList⟩ : Hit)],
          ragThreshold < h.relevance_score ∧ src = mkSrc h)
    ∧ (search_and_answer true "a".toList
        [⟨1, "T".toList, "S".toList, "S".toList, "".toList, 1, "doc".toList⟩] 1).sources.length ≤ 1
    ∧ (∀ h ∈ [(⟨1, "T".toList, "S".toList, "S".toList, "".toList, 1, "doc".toList⟩ : Hit)],
        (search_and_answer true "a".toList
          [⟨1, "T".toList, "S".toList, "S".toList, "".toList, 1, "doc".toList⟩] 1).confidence
          ≤ h.relevance_score)
    ∧ (∃ h ∈ [(⟨1, "T".toList, "S".toList, "S".toList, "".toList, 1, "doc".toList⟩ : Hit)],
        (search_and_answer true "a".toList
          [⟨1, "T".toList, "S".toList, "S".toList, "".toList, 1, "doc".toList⟩] 1).confidence
          = h.relevance_score) :=
  C8_sources_threshold_cap_min_confidence "a".toList
    [⟨1, "T".toList, "S".toList, "S".toList, "".toList, 1, "doc".toList⟩] 1 (by decide)

/-- C4: every `search_notes` result has at most one hit per note id; the hit
kept for a note is built from the row with the highest similarity among that
note's retrieved rows, ties broken in favour of the earlier retrieval
position; the result is sorted in non-increasing relevance order and has
length at most `n_results`. -/
theorem C4_search_dedup_rank_truncate (query : List Char) (rows : List Row)
    (n : Nat) :
    ((search_notes true query rows n).map Hit.note_id).Nodup
    ∧ (search_notes true query rows n).Pairwise
        (fun a b => b.relevance_score ≤ a.relevance_score)
    ∧ (search_notes true query rows n).length ≤ n
    ∧ ∀ h ∈ search_notes true query rows n,
        ∃ i, ∃ hi : i < rows.length,
          (rows.get ⟨i, hi⟩).note_id = h.note_id
          ∧ h = mkHit (rows.get ⟨i, hi⟩)
          ∧ ∀ j, ∀ hj : j < rows.length,
              (rows.get ⟨j, hj⟩).note_id = h.note_id →
              relOf (rows.get ⟨j, hj⟩) ≤ h.relevance_score
              ∧ (relOf (rows.get ⟨j, hj⟩) = h.relevance_score → i ≤ j) := by
  by_cases hq : (pyStrip query).isEmpty = true
  · rw [search_notes_blank query rows n hq]
    exact ⟨by simp, by simp, by simp, by intro h hh; simp at hh⟩
  · have hq' : (pyStrip query).isEmpty = false := by simpa using hq
    rw [search_notes_eq query rows n hq']
    have hnodup : (((rows.foldl dedupStep []).map Prod.fst)).Nodup :=
      foldl_dedup_fst_nodup rows [] (by simp)
    have hid : ∀ p ∈ rows.foldl dedupStep [], (p.2).note_id = p.1 :=
      foldl_dedup_snd_id rows [] (by intro p hp; simp at hp)
    have hvals_map : (((rows.foldl dedupStep []).map (·.2)).map Hit.note_id)
        = (rows.foldl dedupStep []).map Prod.fst := by
      rw [List.map_map]
      exact List.map_congr_left (fun p hp => hid p hp)
    have hperm : List.Perm
        (sortDesc Hit.relevance_score ((rows.foldl dedupStep []).map (·.2)))
        ((rows.foldl dedupStep []).map (·.2)) := sortDesc_perm _ _
    refine ⟨?_, ?_, ?_, ?_⟩
    · have h1 : (((rows.foldl dedupStep []).map (·.2)).map Hit.note_id).Nodup :=
        hvals_map ▸ hnodup
      have h2 : ((sortDesc Hit.relevance_score
          ((rows.foldl dedupStep []).map (·.2))).map Hit.note_id).Nodup :=
        ((hperm.map Hit.note_id).symm).nodup h1
      rw [List.map_take]
      exact List.Nodup.sublist (List.take_sublist _ _) h2
    · exact List.Pairwise.sublist (List.take_sublist _ _) (sortDesc_sorted _ _)
    · exact List.length_take_le _ _
    · intro h hh
      have hh1 : h ∈ sortDesc Hit.relevance_score ((rows.foldl dedupStep []).map (·.2)) :=
        List.Sublist.mem hh (List.take_sublist _ _)
      have hh2 : h ∈ (rows.foldl dedupStep []).map (·.2) := (hperm.mem_iff).mp hh1
      obtain ⟨p, hp, hps⟩ := List.exists_of_mem_map hh2
      obtain ⟨k0, h0⟩ := p
      have hh0 : h0 = h := hps
      subst hh0
      have hkey : k0 = h0.note_id := (hid (k0, h0) hp).symm
      have hfind : dictFind h0.note_id (rows.foldl dedupStep []) = some h0 := by
        rw [← hkey]
        exact dictFind_of_mem _ hnodup k0 h0 hp
      have hmerge := foldl_dedup_find rows [] h0.note_id
      rw [hfind] at hmerge
      cases hbr : bestRow h0.note_id rows with
      | none =>
        rw [hbr, mergeHit_none_right] at hmerge
        exact absurd hmerge (by simp [dictFind])
      | some b =>
        rw [hbr] at hmerge
        have hmb : h0 = mkHit b := by
          have h3 : (some h0 : Option Hit) = some (mkHit b) := hmerge
          injection h3
        obtain ⟨hbk, i, hi, hget, hmax⟩ := bestRow_spec h0.note_id rows b hbr
        refine ⟨i, hi, ?_, ?_, ?_⟩
        · rw [hget]; exact hbk
        · rw [hget]; exact hmb
        · intro j hj hjk
          have relh : h0.relevance_score = relOf b := by rw [hmb]; rfl
          obtain ⟨hle, hties⟩ := hmax j hj hjk
          refine ⟨?_, ?_⟩
          · rw [relh]; exact hle
          · intro he
            exact hties (by rw [← relh]; exact he)

/-- C4 (witness): the per-note best-row characterisation evaluated on a
concrete one-row retrieval. -/
theorem C4_witness :
    ∃ i, ∃ hi : i < ([⟨1, "T".toList, "S".toList, "".toList, "d".toList, 0⟩] : List Row).length,
      (([⟨1, "T".toList, "S".toList, "".toList, "d".toList, 0⟩] : List Row).get ⟨i, hi⟩).note_id
        = (mkHit (⟨1, "T".toList, "S".toList, "".toList, "d".toList, 0⟩ : Row)).note_id
      ∧ mkHit (⟨1, "T".toList, "S".toList, "".toList, "d".toList, 0⟩ : Row)
          = mkHit (([⟨1, "T".toList, "S".toList, "".toList, "d".toList, 0⟩] : List Row).get ⟨i, hi⟩)
      ∧ ∀ j, ∀ hj : j < ([⟨1, "T".toList, "S".toList, "".toList, "d".toList, 0⟩] : List Row).length,
          (([⟨1, "T".toList, "S".toList, "".toList, "d".toList, 0⟩] : List Row).get ⟨j, hj⟩).note_id
            = (mkHit (⟨1, "T".toList, "S".toList, "".toList, "d".toList, 0⟩ : Row)).note_id →
          relOf (([⟨1, "T".toList, "S".toList, "".toList, "d".toList, 0⟩] : List Row).get ⟨j, hj⟩)
            ≤ (mkHit (⟨1, "T".toList, "S".toList, "".toList, "d".toList, 0⟩ : Row)).relevance_score
          ∧ (relOf (([⟨1, "T".toList, "S".toList, "".toList, "d".toList, 0⟩] : List Row).get ⟨j, hj⟩)
              = (mkHit (⟨1, "T".toList, "S".toList, "".toList, "d".toList, 0⟩ : Row)).relevance_score
              → i ≤ j) :=
  (C4_search_dedup_rank_truncate "q".toList
    [⟨1, "T".toList, "S".toList, "".toList, "d".toList, 0⟩] 5).2.2.2
    (mkHit (⟨1, "T".toList, "S".toList, "".toList, "d".toList, 0⟩ : Row)) (by decide)

end Inkling
